import Mathlib

/-! # Shallow embedding of the CHIP-8 interpreter core (src/chip8.rs)

Machine integers are modelled as Nat with explicit reduction modulo 2^8 or
2^16 at the points where the Rust code wraps.  Fallible operations (slice
indexing that can panic, popping an empty stack with unwrap) return Option,
with none standing for a panic/abort.  The wall-clock timer gate in cycle()
(Instant::elapsed compared against the 60 Hz period) is replaced by an
explicit boolean oracle argument, and the random byte drawn in opcode Cxnn
by an explicit Nat argument.  Fixed-size Rust arrays (memory, v, display,
pressed_keys) are modelled as total functions Nat -> _ together with the
explicit bounds checks that Rust indexing performs.  -/

namespace Chip8

def DISPLAY_WIDTH : Nat := 64
def DISPLAY_HEIGHT : Nat := 32
def FONT_START : Nat := 0x050
def FONT_HEIGHT : Nat := 5
def KEY_COUNT : Nat := 16
def MEMORY_SIZE : Nat := 4096
def PROGRAM_COUNTER_START : Nat := 0x200
def V_COUNT : Nat := 16
def V_CARRY_FLAG : Nat := 15

/-- The font sprite table pre-loaded at FONT_START (const FONTS in the source). -/
def FONTS : List Nat :=
  [0xF0, 0x90, 0x90, 0x90, 0xF0,
   0x20, 0x60, 0x20, 0x20, 0x70,
   0xF0, 0x10, 0xF0, 0x80, 0xF0,
   0xF0, 0x10, 0xF0, 0x10, 0xF0,
   0x90, 0x90, 0xF0, 0x10, 0x10,
   0xF0, 0x80, 0xF0, 0x10, 0xF0,
   0xF0, 0x80, 0xF0, 0x90, 0xF0,
   0xF0, 0x10, 0x20, 0x40, 0x40,
   0xF0, 0x90, 0xF0, 0x90, 0xF0,
   0xF0, 0x90, 0xF0, 0x10, 0xF0,
   0xF0, 0x90, 0xF0, 0x90, 0x90,
   0xE0, 0x90, 0xE0, 0x90, 0xE0,
   0xF0, 0x80, 0x80, 0x80, 0xF0,
   0xE0, 0x90, 0x90, 0x90, 0xE0,
   0xF0, 0x80, 0xF0, 0x80, 0xF0,
   0xF0, 0x80, 0xF0, 0x80, 0x80]

/-- Pointwise update of a function; models writing one cell of a Rust array. -/
def upd {α : Type} (f : Nat → α) (i : Nat) (a : α) : Nat → α :=
  fun j => if j = i then a else f j

/-- Reduction modulo 2^16 (u16 wraparound). -/
def wrap16 (a : Nat) : Nat := a % 65536

/-- u16 wrapping subtraction (intended for b ≤ 65536). -/
def sub16 (a b : Nat) : Nat := (a + 65536 - b) % 65536

/-- Bounds-checked read of the 4096-byte memory array; none models the
Rust index-out-of-bounds panic. -/
def memRead (m : Nat → Nat) (a : Nat) : Option Nat :=
  if a < MEMORY_SIZE then some (m a) else none

/-- Bounds-checked write to the 4096-byte memory array. -/
def memWrite (m : Nat → Nat) (a b : Nat) : Option (Nat → Nat) :=
  if a < MEMORY_SIZE then some (upd m a b) else none

/-- Bounds-checked read of the 16-entry pressed_keys array. -/
def keyRead (p : Nat → Bool) (k : Nat) : Option Bool :=
  if k < KEY_COUNT then some (p k) else none

/-- The Cpu state (struct Cpu).  prev_timer_time : Instant is not modelled;
its only use, the 60 Hz gate in cycle(), becomes the timerFires oracle. -/
structure Cpu where
  memory : Nat → Nat
  program_counter : Nat
  i : Nat
  v : Nat → Nat
  stack : List Nat
  delay_timer : Nat
  sound_timer : Nat
  display : Nat → Bool
  display_modified : Bool
  pressed_keys : Nat → Bool

/-- Cpu::new - memory zeroed, fonts copied at FONT_START, the rom image
copied at 0x200; none models the panic when the image does not fit. -/
def Cpu.new (rom : List Nat) : Option Cpu :=
  if rom.length ≤ MEMORY_SIZE - PROGRAM_COUNTER_START then
    some
      { memory := fun a =>
          if PROGRAM_COUNTER_START ≤ a ∧ a < PROGRAM_COUNTER_START + rom.length then
            rom.getD (a - PROGRAM_COUNTER_START) 0
          else if FONT_START ≤ a ∧ a < FONT_START + FONTS.length then
            FONTS.getD (a - FONT_START) 0
          else 0
        program_counter := PROGRAM_COUNTER_START
        i := 0
        v := fun _ => 0
        stack := []
        delay_timer := 0
        sound_timer := 0
        display := fun _ => false
        display_modified := false
        pressed_keys := fun _ => false }
  else none

/-- First nibble of an opcode: (opcode & 0xF000) >> 12. -/
def nib1 (c : Nat) : Nat := (c &&& 0xF000) >>> 12

/-- Second nibble of an opcode (the register index x): (opcode & 0x0F00) >> 8. -/
def nib2 (c : Nat) : Nat := (c &&& 0x0F00) >>> 8

/-- Third nibble of an opcode (the register index y): (opcode & 0x00F0) >> 4. -/
def nib3 (c : Nat) : Nat := (c &&& 0x00F0) >>> 4

/-- Fourth nibble of an opcode: opcode & 0x000F. -/
def nib4 (c : Nat) : Nat := c &&& 0x000F

/-- The 12-bit address operand: opcode & 0x0FFF. -/
def nnnOf (c : Nat) : Nat := c &&& 0x0FFF

/-- The 8-bit immediate operand: opcode & 0x00FF. -/
def nnOf (c : Nat) : Nat := c &&& 0x00FF

/-- Bit col (most significant first) of a sprite row byte:
(sprite >> (7 - col)) & 1. -/
def spriteBit (sprite col : Nat) : Nat := (sprite >>> (7 - col)) &&& 1

/-- One iteration of the inner column loop of Cpu::display_opcode, acting on
the pair (display, value to be stored in VF). -/
def drawCol (x y row sprite : Nat) (st : (Nat → Bool) × Nat) (col : Nat) :
    (Nat → Bool) × Nat :=
  if spriteBit sprite col = 1 ∧ x + col < DISPLAY_WIDTH ∧ y + row < DISPLAY_HEIGHT then
    let idx := (x + col) + DISPLAY_WIDTH * (y + row)
    (upd st.1 idx (!st.1 idx), if st.1 idx then 1 else st.2)
  else st

/-- The inner column loop of Cpu::display_opcode over columns [0, k). -/
def drawCols (x y row sprite : Nat) : Nat → (Nat → Bool) × Nat → (Nat → Bool) × Nat
  | 0, st => st
  | k+1, st => drawCol x y row sprite (drawCols x y row sprite k st) k

/-- The outer row loop of Cpu::display_opcode over rows [0, k); each row byte
is read (bounds-checked) from memory at i + row. -/
def drawRows (m : Nat → Nat) (i x y : Nat) : Nat → (Nat → Bool) × Nat →
    Option ((Nat → Bool) × Nat)
  | 0, st => some st
  | k+1, st => do
      let st1 ← drawRows m i x y k st
      let sprite ← memRead m (i + k)
      pure (drawCols x y k sprite 8 st1)

/-- Cpu::display_opcode.  The source clears v[0xF] before the row loop and
conditionally sets it to 1 inside; since the loops never read v, the flag is
threaded through the fold (starting at 0) and stored once at the end, which
is observationally the same sequence of display/flag effects. -/
def Cpu.display_opcode (cpu : Cpu) (x y height : Nat) : Option Cpu :=
  let x := x % DISPLAY_WIDTH
  let y := y % DISPLAY_HEIGHT
  do
    let st ← drawRows cpu.memory cpu.i x y height (cpu.display, 0)
    pure { cpu with display := st.1, v := upd cpu.v V_CARRY_FLAG st.2,
                    display_modified := true }

/-- The Fx55 loop: for index in 0..=x write v[index] to memory[i + index];
this processes indices [0, k). -/
def storeRegs (m : Nat → Nat) (i : Nat) (v : Nat → Nat) : Nat → Option (Nat → Nat)
  | 0 => some m
  | k+1 => do
      let m1 ← storeRegs m i v k
      memWrite m1 (i + k) (v k)

/-- The Fx65 loop: for index in 0..=x read v[index] from memory[i + index];
this processes indices [0, k). -/
def loadRegs (m : Nat → Nat) (i : Nat) (v : Nat → Nat) : Nat → Option (Nat → Nat)
  | 0 => some v
  | k+1 => do
      let v1 ← loadRegs m i v k
      let b ← memRead m (i + k)
      pure (upd v1 k b)

/-- Cpu::process_opcode.  The Rust match over (op_1, op_2, op_3, op_4) is
written as an if-chain testing the same patterns in the same order.  The Rust
locals op_1..op_4, x, vx, y, vy, nnn, nn, n are pure reads of the immutable
pre-state and are inlined (nib1 opcode, cpu.v (nib2 opcode), ...); u8 and
u16 arithmetic wrap explicitly; rnd models rand::random::<u8>(). -/
def Cpu.process_opcode (cpu : Cpu) (rnd : Nat) (opcode : Nat) : Option Cpu :=
  if nib1 opcode = 0 ∧ nib2 opcode = 0 ∧ nib3 opcode = 0xE ∧ nib4 opcode = 0 then
    some { cpu with display := fun _ => false, display_modified := true }
  else if nib1 opcode = 0 ∧ nib2 opcode = 0 ∧ nib3 opcode = 0xE ∧ nib4 opcode = 0xE then
    match cpu.stack with
    | [] => none
    | a :: rest => some { cpu with program_counter := a, stack := rest }
  else if nib1 opcode = 1 then
    some { cpu with program_counter := nnnOf opcode }
  else if nib1 opcode = 2 then
    some { cpu with stack := cpu.program_counter :: cpu.stack,
                    program_counter := nnnOf opcode }
  else if nib1 opcode = 3 then
    some (if cpu.v (nib2 opcode) = nnOf opcode then
            { cpu with program_counter := wrap16 (cpu.program_counter + 2) }
          else cpu)
  else if nib1 opcode = 4 then
    some (if cpu.v (nib2 opcode) ≠ nnOf opcode then
            { cpu with program_counter := wrap16 (cpu.program_counter + 2) }
          else cpu)
  else if nib1 opcode = 5 ∧ nib4 opcode = 0 then
    some (if cpu.v (nib2 opcode) = cpu.v (nib3 opcode) then
            { cpu with program_counter := wrap16 (cpu.program_counter + 2) }
          else cpu)
  else if nib1 opcode = 6 then
    some { cpu with v := upd cpu.v (nib2 opcode) (nnOf opcode) }
  else if nib1 opcode = 7 then
    some { cpu with v := upd cpu.v (nib2 opcode)
                          ((cpu.v (nib2 opcode) + nnOf opcode) % 256) }
  else if nib1 opcode = 8 ∧ nib4 opcode = 0 then
    some { cpu with v := upd cpu.v (nib2 opcode) (cpu.v (nib3 opcode)) }
  else if nib1 opcode = 8 ∧ nib4 opcode = 1 then
    some { cpu with v := upd cpu.v (nib2 opcode)
                          (cpu.v (nib2 opcode) ||| cpu.v (nib3 opcode)) }
  else if nib1 opcode = 8 ∧ nib4 opcode = 2 then
    some { cpu with v := upd cpu.v (nib2 opcode)
                          (cpu.v (nib2 opcode) &&& cpu.v (nib3 opcode)) }
  else if nib1 opcode = 8 ∧ nib4 opcode = 3 then
    some { cpu with v := upd cpu.v (nib2 opcode)
                          (cpu.v (nib2 opcode) ^^^ cpu.v (nib3 opcode)) }
  else if nib1 opcode = 8 ∧ nib4 opcode = 4 then
    some { cpu with v := upd (upd cpu.v (nib2 opcode)
                               ((cpu.v (nib2 opcode) + cpu.v (nib3 opcode)) % 256))
                           V_CARRY_FLAG
                           (if 256 ≤ cpu.v (nib2 opcode) + cpu.v (nib3 opcode) then 1 else 0) }
  else if nib1 opcode = 8 ∧ nib4 opcode = 5 then
    some { cpu with v := upd (upd cpu.v (nib2 opcode)
                               ((cpu.v (nib2 opcode) + 256 - cpu.v (nib3 opcode)) % 256))
                           V_CARRY_FLAG
                           (if cpu.v (nib2 opcode) < cpu.v (nib3 opcode) then 0 else 1) }
  else if nib1 opcode = 8 ∧ nib4 opcode = 6 then
    some { cpu with v := upd (upd cpu.v (nib2 opcode) (cpu.v (nib2 opcode) >>> 1))
                           V_CARRY_FLAG (cpu.v (nib2 opcode) &&& 1) }
  else if nib1 opcode = 8 ∧ nib4 opcode = 7 then
    some { cpu with v := upd (upd cpu.v (nib2 opcode)
                               ((cpu.v (nib3 opcode) + 256 - cpu.v (nib2 opcode)) % 256))
                           V_CARRY_FLAG
                           (if cpu.v (nib3 opcode) < cpu.v (nib2 opcode) then 0 else 1) }
  else if nib1 opcode = 8 ∧ nib4 opcode = 0xE then
    some { cpu with v := upd (upd cpu.v (nib2 opcode)
                               ((cpu.v (nib2 opcode) <<< 1) % 256))
                           V_CARRY_FLAG
                           (if cpu.v (nib2 opcode) &&& 0x80 = 0 then 0 else 1) }
  else if nib1 opcode = 9 ∧ nib4 opcode = 0 then
    some (if cpu.v (nib2 opcode) ≠ cpu.v (nib3 opcode) then
            { cpu with program_counter := wrap16 (cpu.program_counter + 2) }
          else cpu)
  else if nib1 opcode = 0xA then
    some { cpu with i := nnnOf opcode }
  else if nib1 opcode = 0xB then
    some { cpu with program_counter := wrap16 (nnnOf opcode + cpu.v 0) }
  else if nib1 opcode = 0xC then
    some { cpu with v := upd cpu.v (nib2 opcode) ((rnd % 256) &&& nnOf opcode) }
  else if nib1 opcode = 0xD then
    cpu.display_opcode (cpu.v (nib2 opcode)) (cpu.v (nib3 opcode)) (nib4 opcode)
  else if nib1 opcode = 0xE ∧ nib3 opcode = 9 ∧ nib4 opcode = 0xE then do
    let key ← keyRead cpu.pressed_keys (cpu.v (nib2 opcode))
    pure (if key then { cpu with program_counter := wrap16 (cpu.program_counter + 2) }
          else cpu)
  else if nib1 opcode = 0xE ∧ nib3 opcode = 0xA ∧ nib4 opcode = 1 then do
    let key ← keyRead cpu.pressed_keys (cpu.v (nib2 opcode))
    pure (if !key then { cpu with program_counter := wrap16 (cpu.program_counter + 2) }
          else cpu)
  else if nib1 opcode = 0xF ∧ nib3 opcode = 0 ∧ nib4 opcode = 7 then
    some { cpu with v := upd cpu.v (nib2 opcode) cpu.delay_timer }
  else if nib1 opcode = 0xF ∧ nib3 opcode = 0 ∧ nib4 opcode = 0xA then
    match (List.range KEY_COUNT).find? cpu.pressed_keys with
    | some index => some { cpu with v := upd cpu.v (nib2 opcode) index }
    | none => some { cpu with program_counter := sub16 cpu.program_counter 2 }
  else if nib1 opcode = 0xF ∧ nib3 opcode = 1 ∧ nib4 opcode = 5 then
    some { cpu with delay_timer := cpu.v (nib2 opcode) }
  else if nib1 opcode = 0xF ∧ nib3 opcode = 1 ∧ nib4 opcode = 8 then
    some { cpu with sound_timer := cpu.v (nib2 opcode) }
  else if nib1 opcode = 0xF ∧ nib3 opcode = 1 ∧ nib4 opcode = 0xE then
    some { cpu with i := wrap16 (cpu.i + cpu.v (nib2 opcode)) }
  else if nib1 opcode = 0xF ∧ nib3 opcode = 2 ∧ nib4 opcode = 9 then
    some { cpu with i := FONT_START + FONT_HEIGHT * (cpu.v (nib2 opcode) &&& 0xF) }
  else if nib1 opcode = 0xF ∧ nib3 opcode = 3 ∧ nib4 opcode = 3 then do
    let m1 ← memWrite cpu.memory cpu.i (cpu.v (nib2 opcode) / 100 % 10)
    let m2 ← memWrite m1 (wrap16 (cpu.i + 1)) (cpu.v (nib2 opcode) / 10 % 10)
    let m3 ← memWrite m2 (wrap16 (cpu.i + 2)) (cpu.v (nib2 opcode) % 10)
    pure { cpu with memory := m3 }
  else if nib1 opcode = 0xF ∧ nib3 opcode = 5 ∧ nib4 opcode = 5 then do
    let m1 ← storeRegs cpu.memory cpu.i cpu.v (nib2 opcode + 1)
    pure { cpu with memory := m1 }
  else if nib1 opcode = 0xF ∧ nib3 opcode = 6 ∧ nib4 opcode = 5 then do
    let v1 ← loadRegs cpu.memory cpu.i cpu.v (nib2 opcode + 1)
    pure { cpu with v := v1 }
  else
    -- unsupported opcode: the source logs and continues unchanged
    some cpu

/-- Cpu::process_timers - saturating decrement of both timers (Nat
subtraction is saturating, matching u8::saturating_sub). -/
def Cpu.process_timers (cpu : Cpu) : Cpu :=
  { cpu with delay_timer := cpu.delay_timer - 1, sound_timer := cpu.sound_timer - 1 }

/-- Cpu::fetch - read two consecutive bytes at the program counter, combine
big-endian, then advance the program counter by 2. -/
def Cpu.fetch (cpu : Cpu) : Option (Nat × Cpu) := do
  let hi ← memRead cpu.memory cpu.program_counter
  let lo ← memRead cpu.memory (cpu.program_counter + 1)
  pure ((hi <<< 8) ||| lo, { cpu with program_counter := wrap16 (cpu.program_counter + 2) })

/-- Cpu::cycle - conditionally tick the timers (the wall-clock 60 Hz gate is
the timerFires oracle), then fetch and execute one instruction. -/
def Cpu.cycle (cpu : Cpu) (timerFires : Bool) (rnd : Nat) : Option Cpu := do
  let cpu0 := if timerFires then cpu.process_timers else cpu
  let (opcode, cpu1) ← cpu0.fetch
  cpu1.process_opcode rnd opcode

/-- Decidable test: some sprite bit of the draw with origin (x, y), height n,
sprite data at memory address i, targets pixel index idx in bounds. -/
def hitRowB (sprite x y row k idx : Nat) : Bool :=
  (List.range k).any fun col =>
    spriteBit sprite col == 1 && decide (x + col < DISPLAY_WIDTH) &&
      decide (y + row < DISPLAY_HEIGHT) && (idx == (x + col) + DISPLAY_WIDTH * (y + row))

/-- Decidable test: some in-bounds set sprite bit of the whole draw targets
pixel index idx. -/
def hitB (m : Nat → Nat) (i x y n idx : Nat) : Bool :=
  (List.range n).any fun row => hitRowB (m (i + row)) x y row 8 idx

/-- Decidable test: some in-bounds set sprite bit of row targets a pixel
that is on in display d (a collision within one row). -/
def collideRowB (sprite x y row k : Nat) (d : Nat → Bool) : Bool :=
  (List.range k).any fun col =>
    spriteBit sprite col == 1 && decide (x + col < DISPLAY_WIDTH) &&
      decide (y + row < DISPLAY_HEIGHT) && d ((x + col) + DISPLAY_WIDTH * (y + row))

/-- Decidable test: some in-bounds set sprite bit of the whole draw targets a
pixel that is on in display d (the collision condition of the draw). -/
def collideB (m : Nat → Nat) (i x y n : Nat) (d : Nat → Bool) : Bool :=
  (List.range n).any fun row => collideRowB (m (i + row)) x y row 8 d

/-- A concrete all-zero test state used by the witnesses below. -/
def testCpu : Cpu :=
  { memory := fun _ => 0
    program_counter := PROGRAM_COUNTER_START
    i := 0
    v := fun _ => 0
    stack := []
    delay_timer := 0
    sound_timer := 0
    display := fun _ => false
    display_modified := false
    pressed_keys := fun _ => false }

/-- Test rom: A050 (I := 0x50) then F133 (store BCD of V1 at I). -/
def romC1 : List Nat := [0xA0, 0x50, 0xF1, 0x33]

/-- The machine constructed from romC1. -/
def cpuC1 : Cpu := (Cpu.new romC1).getD testCpu

/-- Test state for the add opcode with x = 15: V15 = 5, V0 = 3. -/
def cpuC2 : Cpu :=
  { testCpu with v := fun j => if j = 15 then 5 else if j = 0 then 3 else 0 }

/-- Test state for the add opcode: V1 = 200, V2 = 100. -/
def cpuAdd : Cpu :=
  { testCpu with v := fun j => if j = 1 then 200 else if j = 2 then 100 else 0 }

/-- Result of executing 0x8124 (add V1,V2) on cpuAdd. -/
def cpuAddRes : Cpu := (cpuAdd.process_opcode 0 0x8124).getD testCpu

/-- Test state for draws: sprite byte 0x81 at address 0x200, I = 0x200. -/
def testCpuDraw : Cpu :=
  { testCpu with memory := fun a => if a = 0x200 then 0x81 else 0, i := 0x200 }

/-- Result of drawing that sprite once at (62, 0). -/
def testCpuDrawRes : Cpu := (testCpuDraw.display_opcode 62 0 1).getD testCpu

/-- Result of drawing that sprite a second time at (62, 0). -/
def testCpuDrawRes2 : Cpu := (testCpuDrawRes.display_opcode 62 0 1).getD testCpu

/-- Test state whose next instruction is 0x2345 (call 0x345). -/
def testCpuCall : Cpu :=
  { testCpu with memory := fun a => if a = 0x200 then 0x23 else if a = 0x201 then 0x45 else 0 }

/-- The state after fetching from testCpuCall. -/
def testCpuCallF : Cpu := { testCpuCall with program_counter := 0x202 }

/-- Test state with one return address on the stack. -/
def testCpuStack : Cpu := { testCpu with stack := [0x0300] }

/-- Test state whose next instruction is 0xF00A (wait for key into V0). -/
def testCpuWait : Cpu :=
  { testCpu with memory := fun a => if a = 0x200 then 0xF0 else if a = 0x201 then 0x0A else 0 }

/-- Test state with nonzero timers (next instruction 0x0000, an unsupported
opcode treated as a no-op). -/
def testCpuTimer : Cpu := { testCpu with delay_timer := 5, sound_timer := 3 }

/-- Result of one cycle on testCpuTimer with the 60 Hz gate firing. -/
def testCpuTimerRes : Cpu := (testCpuTimer.cycle true 0).getD testCpu

/-- Test state for the register store/load and BCD opcodes:
I = 0x300, V0 = 123, every other register 7. -/
def testCpuRegs : Cpu :=
  { testCpu with i := 0x300, v := fun j => if j = 0 then 123 else 7 }

/-- Result of executing 0xF155 (store V0..V1) on testCpuRegs. -/
def testCpuRegsRes : Cpu := (testCpuRegs.process_opcode 0 0xF155).getD testCpu

/-- Result of executing 0xF033 (store BCD of V0) on testCpuRegs. -/
def testCpuBcdRes : Cpu := (testCpuRegs.process_opcode 0 0xF033).getD testCpu

/-- Test state with key 7 pressed. -/
def testCpuKeys : Cpu := { testCpu with pressed_keys := fun k => k == 7 }

-- ### end of definitions / fixtures; theorems follow ###

theorem upd_same {α : Type} (f : Nat → α) (i : Nat) (a : α) : upd f i a i = a := by
  simp [upd]

theorem upd_ne {α : Type} (f : Nat → α) (i : Nat) (a : α) {j : Nat} (h : j ≠ i) :
    upd f i a j = f j := by
  simp [upd, h]

theorem memRead_some {m : Nat → Nat} {a b : Nat} (h : memRead m a = some b) :
    a < MEMORY_SIZE ∧ b = m a := by
  unfold memRead at h
  split at h
  · exact ⟨by assumption, (Option.some.inj h).symm⟩
  · cases h

theorem memRead_of_lt {m : Nat → Nat} {a : Nat} (h : a < MEMORY_SIZE) :
    memRead m a = some (m a) := by
  simp [memRead, h]

theorem memWrite_some {m : Nat → Nat} {a b : Nat} {m2 : Nat → Nat}
    (h : memWrite m a b = some m2) : a < MEMORY_SIZE ∧ m2 = upd m a b := by
  unfold memWrite at h
  split at h
  · exact ⟨by assumption, (Option.some.inj h).symm⟩
  · cases h

theorem keyRead_of_lt {p : Nat → Bool} {k : Nat} (h : k < KEY_COUNT) :
    keyRead p k = some (p k) := by
  simp [keyRead, h]

theorem any_range_succ (f : Nat → Bool) (n : Nat) :
    (List.range (n+1)).any f = ((List.range n).any f || f n) := by
  rw [List.range_succ, List.any_append]
  simp

theorem find_range_none {p : Nat → Bool} {n : Nat} (h : ∀ k, k < n → p k = false) :
    (List.range n).find? p = none := by
  rw [List.find?_eq_none]
  intro x hx
  rw [List.mem_range] at hx
  simp [h x hx]

theorem find_range'_least :
    ∀ (n s k : Nat) (p : Nat → Bool), s ≤ k → k < s + n → p k = true →
      (∀ j, s ≤ j → j < k → p j = false) → (List.range' s n).find? p = some k := by
  intro n
  induction n with
  | zero => intro s k p h1 h2 _ _; omega
  | succ n ih =>
    intro s k p hsk hk hp hmin
    rw [List.range'_succ]
    by_cases hs : k = s
    · subst hs
      simp [List.find?, hp]
    · have hlt : s < k := lt_of_le_of_ne hsk (Ne.symm hs)
      have hps : p s = false := hmin s le_rfl hlt
      simp only [List.find?, hps]
      exact ih (s+1) k p (by omega) (by omega) hp (fun j hj1 hj2 => hmin j (by omega) hj2)

theorem find_range_least {p : Nat → Bool} {n k : Nat} (hk : k < n) (hp : p k = true)
    (hmin : ∀ j, j < k → p j = false) : (List.range n).find? p = some k := by
  rw [List.range_eq_range']
  exact find_range'_least n 0 k p (Nat.zero_le k) (by omega) hp (fun j _ hj2 => hmin j hj2)

theorem hitRowB_succ (sprite x y row k idx : Nat) :
    hitRowB sprite x y row (k+1) idx =
      (hitRowB sprite x y row k idx ||
        (spriteBit sprite k == 1 && decide (x + k < DISPLAY_WIDTH) &&
          decide (y + row < DISPLAY_HEIGHT) &&
          (idx == (x + k) + DISPLAY_WIDTH * (y + row)))) := by
  unfold hitRowB
  exact any_range_succ _ k

theorem collideRowB_succ (sprite x y row k : Nat) (d : Nat → Bool) :
    collideRowB sprite x y row (k+1) d =
      (collideRowB sprite x y row k d ||
        (spriteBit sprite k == 1 && decide (x + k < DISPLAY_WIDTH) &&
          decide (y + row < DISPLAY_HEIGHT) &&
          d ((x + k) + DISPLAY_WIDTH * (y + row)))) := by
  unfold collideRowB
  exact any_range_succ _ k

theorem hitB_succ (m : Nat → Nat) (i x y n idx : Nat) :
    hitB m i x y (n+1) idx = (hitB m i x y n idx || hitRowB (m (i + n)) x y n 8 idx) := by
  unfold hitB
  exact any_range_succ _ n

theorem collideB_succ (m : Nat → Nat) (i x y n : Nat) (d : Nat → Bool) :
    collideB m i x y (n+1) d = (collideB m i x y n d || collideRowB (m (i + n)) x y n 8 d) := by
  unfold collideB
  exact any_range_succ _ n

theorem hitRowB_self_false (sprite x y row k : Nat)
    (_hx : x + k < DISPLAY_WIDTH) :
    hitRowB sprite x y row k ((x + k) + DISPLAY_WIDTH * (y + row)) = false := by
  rw [hitRowB, List.any_eq_false]
  intro col hcol
  rw [List.mem_range] at hcol
  intro hatom
  simp only [Bool.and_eq_true, beq_iff_eq, decide_eq_true_eq] at hatom
  obtain ⟨⟨⟨_, hxw⟩, _⟩, heq⟩ := hatom
  simp only [DISPLAY_WIDTH] at heq _hx hxw
  omega

/-- Characterization of the inner column loop: each in-bounds set bit of the
row toggles its (distinct) target pixel, and the flag becomes 1 exactly when
some in-bounds set bit of the row targets a pixel on in the input display. -/
theorem drawCols_char (x y row sprite : Nat) (d : Nat → Bool) (vf : Nat) :
    ∀ k, (∀ idx, (drawCols x y row sprite k (d, vf)).1 idx =
        if hitRowB sprite x y row k idx then !(d idx) else d idx) ∧
      (drawCols x y row sprite k (d, vf)).2 =
        (if collideRowB sprite x y row k d then 1 else vf) := by
  intro k
  induction k with
  | zero =>
    constructor
    · intro idx
      simp [drawCols, hitRowB]
    · simp [drawCols, collideRowB]
  | succ k ih =>
    obtain ⟨ihd, ihv⟩ := ih
    by_cases hc : spriteBit sprite k = 1 ∧ x + k < DISPLAY_WIDTH ∧ y + row < DISPLAY_HEIGHT
    · obtain ⟨h1, h2, h3⟩ := hc
      have hknot : hitRowB sprite x y row k ((x + k) + DISPLAY_WIDTH * (y + row)) = false :=
        hitRowB_self_false sprite x y row k h2
      have hdk : (drawCols x y row sprite k (d, vf)).1 ((x + k) + DISPLAY_WIDTH * (y + row)) =
          d ((x + k) + DISPLAY_WIDTH * (y + row)) := by
        rw [ihd, hknot]
        simp
      have hstep : drawCols x y row sprite (k+1) (d, vf) =
          (upd (drawCols x y row sprite k (d, vf)).1
              ((x + k) + DISPLAY_WIDTH * (y + row))
              (!(drawCols x y row sprite k (d, vf)).1
                ((x + k) + DISPLAY_WIDTH * (y + row))),
            if (drawCols x y row sprite k (d, vf)).1
                ((x + k) + DISPLAY_WIDTH * (y + row)) then 1
            else (drawCols x y row sprite k (d, vf)).2) := by
        simp [drawCols, drawCol, h1, h2, h3]
      constructor
      · intro idx
        rw [hstep]
        by_cases hidx : idx = (x + k) + DISPLAY_WIDTH * (y + row)
        · subst hidx
          show upd _ _ _ _ = _
          rw [upd_same, hdk, hitRowB_succ, hknot]
          simp [h1, h2, h3]
        · show upd _ _ _ _ = _
          rw [upd_ne _ _ _ hidx, ihd idx, hitRowB_succ]
          have hatom : (spriteBit sprite k == 1 && decide (x + k < DISPLAY_WIDTH) &&
              decide (y + row < DISPLAY_HEIGHT) &&
              (idx == (x + k) + DISPLAY_WIDTH * (y + row))) = false := by
            simp [hidx]
          rw [hatom, Bool.or_false]
      · rw [hstep]
        show (if _ then _ else _) = _
        rw [hdk, ihv, collideRowB_succ]
        cases hdd : d ((x + k) + DISPLAY_WIDTH * (y + row)) with
        | true => simp [hdd, h1, h2, h3]
        | false =>
          simp only [hdd, Bool.and_false, Bool.or_false]
          simp
    · have hid : drawCols x y row sprite (k+1) (d, vf) = drawCols x y row sprite k (d, vf) := by
        simp [drawCols, drawCol, hc]
      have habc : (spriteBit sprite k == 1 && decide (x + k < DISPLAY_WIDTH) &&
          decide (y + row < DISPLAY_HEIGHT)) = false := by
        by_cases hb1 : spriteBit sprite k = 1
        · by_cases hb2 : x + k < DISPLAY_WIDTH
          · have hb3 : ¬(y + row < DISPLAY_HEIGHT) := fun hb3 => hc ⟨hb1, hb2, hb3⟩
            simp [hb3]
          · simp [hb2]
        · simp [hb1]
      constructor
      · intro idx
        rw [hid, ihd idx, hitRowB_succ, habc]
        simp
      · rw [hid, ihv, collideRowB_succ, habc]
        simp

theorem drawCols_fst (x y row sprite k : Nat) (st : (Nat → Bool) × Nat) (idx : Nat) :
    (drawCols x y row sprite k st).1 idx =
      (if hitRowB sprite x y row k idx then !(st.1 idx) else st.1 idx) := by
  rcases st with ⟨d, vf⟩
  exact (drawCols_char x y row sprite d vf k).1 idx

theorem drawCols_snd (x y row sprite k : Nat) (st : (Nat → Bool) × Nat) :
    (drawCols x y row sprite k st).2 =
      (if collideRowB sprite x y row k st.1 then 1 else st.2) := by
  rcases st with ⟨d, vf⟩
  exact (drawCols_char x y row sprite d vf k).2

theorem hitRowB_iff {sprite x y row k idx : Nat} :
    hitRowB sprite x y row k idx = true ↔
      ∃ col, col < k ∧ spriteBit sprite col = 1 ∧ x + col < DISPLAY_WIDTH ∧
        y + row < DISPLAY_HEIGHT ∧ idx = (x + col) + DISPLAY_WIDTH * (y + row) := by
  simp only [hitRowB, List.any_eq_true, List.mem_range, Bool.and_eq_true, beq_iff_eq,
    decide_eq_true_eq]
  constructor
  · rintro ⟨col, hcol, ⟨⟨⟨hb, hxw⟩, hyh⟩, heq⟩⟩
    exact ⟨col, hcol, hb, hxw, hyh, heq⟩
  · rintro ⟨col, hcol, hb, hxw, hyh, heq⟩
    exact ⟨col, hcol, ⟨⟨⟨hb, hxw⟩, hyh⟩, heq⟩⟩

theorem collideRowB_iff {sprite x y row k : Nat} {d : Nat → Bool} :
    collideRowB sprite x y row k d = true ↔
      ∃ col, col < k ∧ spriteBit sprite col = 1 ∧ x + col < DISPLAY_WIDTH ∧
        y + row < DISPLAY_HEIGHT ∧ d ((x + col) + DISPLAY_WIDTH * (y + row)) = true := by
  simp only [collideRowB, List.any_eq_true, List.mem_range, Bool.and_eq_true, beq_iff_eq,
    decide_eq_true_eq]
  constructor
  · rintro ⟨col, hcol, ⟨⟨⟨hb, hxw⟩, hyh⟩, hd⟩⟩
    exact ⟨col, hcol, hb, hxw, hyh, hd⟩
  · rintro ⟨col, hcol, hb, hxw, hyh, hd⟩
    exact ⟨col, hcol, ⟨⟨⟨hb, hxw⟩, hyh⟩, hd⟩⟩

theorem hitB_iff {m : Nat → Nat} {i x y n idx : Nat} :
    hitB m i x y n idx = true ↔
      ∃ row, row < n ∧ hitRowB (m (i + row)) x y row 8 idx = true := by
  simp [hitB, List.any_eq_true, List.mem_range]

theorem collideB_iff {m : Nat → Nat} {i x y n : Nat} {d : Nat → Bool} :
    collideB m i x y n d = true ↔
      ∃ row, row < n ∧ collideRowB (m (i + row)) x y row 8 d = true := by
  simp [collideB, List.any_eq_true, List.mem_range]

/-- A pixel targeted by row n of a draw is targeted by no earlier row: the
target index determines the row because the column offset stays below
DISPLAY_WIDTH. -/
theorem hitRowB_disjoint {m : Nat → Nat} {i x y n idx : Nat}
    (h : hitRowB (m (i + n)) x y n 8 idx = true) : hitB m i x y n idx = false := by
  cases hfb : hitB m i x y n idx
  · rfl
  · exfalso
    rw [hitB_iff] at hfb
    obtain ⟨row, hrow, hr⟩ := hfb
    rw [hitRowB_iff] at h hr
    obtain ⟨c, _, _, hxw, hyh, heq⟩ := h
    obtain ⟨c2, _, _, hxw2, hyh2, heq2⟩ := hr
    simp only [DISPLAY_WIDTH, DISPLAY_HEIGHT] at hxw hyh hxw2 hyh2 heq heq2
    omega

/-- The row collision test only looks at the pixels the row targets. -/
theorem collideRowB_congr {sprite x y row k : Nat} {d1 d2 : Nat → Bool}
    (h : ∀ col, col < k → spriteBit sprite col = 1 → x + col < DISPLAY_WIDTH →
      y + row < DISPLAY_HEIGHT →
      d1 ((x + col) + DISPLAY_WIDTH * (y + row)) = d2 ((x + col) + DISPLAY_WIDTH * (y + row))) :
    collideRowB sprite x y row k d1 = collideRowB sprite x y row k d2 := by
  have hiff : collideRowB sprite x y row k d1 = true ↔ collideRowB sprite x y row k d2 = true := by
    rw [collideRowB_iff, collideRowB_iff]
    constructor
    · rintro ⟨col, h1, h2, h3, h4, h5⟩
      exact ⟨col, h1, h2, h3, h4, by rw [← h col h1 h2 h3 h4]; exact h5⟩
    · rintro ⟨col, h1, h2, h3, h4, h5⟩
      exact ⟨col, h1, h2, h3, h4, by rw [h col h1 h2 h3 h4]; exact h5⟩
  cases hb1 : collideRowB sprite x y row k d1 <;> cases hb2 : collideRowB sprite x y row k d2 <;>
    simp_all

/-- Characterization of the whole row loop started from flag 0: the final
display XOR-toggles exactly the in-bounds targeted pixels, and the final flag
is 1 exactly when some in-bounds set bit targets a pixel on in the initial
display. -/
theorem drawRows_char (m : Nat → Nat) (i x y : Nat) (d : Nat → Bool) :
    ∀ n st2, drawRows m i x y n (d, 0) = some st2 →
      (∀ idx, st2.1 idx = if hitB m i x y n idx then !(d idx) else d idx) ∧
      st2.2 = (if collideB m i x y n d then 1 else 0) := by
  intro n
  induction n with
  | zero =>
    intro st2 h
    injection h with h
    subst h
    constructor
    · intro idx
      simp [hitB]
    · simp [collideB]
  | succ n ih =>
    intro st2 h
    simp only [drawRows, Option.pure_def, Option.bind_eq_bind'] at h
    rw [Option.bind_eq_some'] at h
    obtain ⟨st1, h1, h2⟩ := h
    rw [Option.bind_eq_some'] at h2
    obtain ⟨sprite, hsp, h3⟩ := h2
    obtain ⟨_, rfl⟩ := memRead_some hsp
    injection h3 with h3
    subst h3
    obtain ⟨ihd, ihv⟩ := ih st1 h1
    constructor
    · intro idx
      rw [drawCols_fst]
      cases hr : hitRowB (m (i + n)) x y n 8 idx
      · rw [if_neg (by simp [hr]), ihd idx, hitB_succ, hr, Bool.or_false]
      · rw [if_pos (by simp [hr])]
        have hnb := hitRowB_disjoint hr
        rw [ihd idx, hnb, hitB_succ, hr]
        simp
    · rw [drawCols_snd]
      have hcongr : collideRowB (m (i + n)) x y n 8 st1.1 =
          collideRowB (m (i + n)) x y n 8 d := by
        apply collideRowB_congr
        intro col hcol hb hxw hyh
        have htr : hitRowB (m (i + n)) x y n 8 ((x + col) + DISPLAY_WIDTH * (y + n)) = true := by
          rw [hitRowB_iff]
          exact ⟨col, hcol, hb, hxw, hyh, rfl⟩
        have hnb := hitRowB_disjoint htr
        rw [ihd _, hnb]
        simp
      rw [hcongr, ihv, collideB_succ]
      cases hb1 : collideRowB (m (i + n)) x y n 8 d <;> cases hb2 : collideB m i x y n d <;>
        simp [hb1, hb2]

/-- Success of the row loop depends only on memory, i and the height, not on
the display/flag state it is started from. -/
theorem drawRows_isSome {m : Nat → Nat} {i x y : Nat} :
    ∀ n (st st2 : (Nat → Bool) × Nat), drawRows m i x y n st = some st2 →
      ∀ st0, ∃ st3, drawRows m i x y n st0 = some st3 := by
  intro n
  induction n with
  | zero =>
    intro st st2 _ st0
    exact ⟨st0, rfl⟩
  | succ n ih =>
    intro st st2 h st0
    simp only [drawRows, Option.pure_def, Option.bind_eq_bind'] at h ⊢
    rw [Option.bind_eq_some'] at h
    obtain ⟨st1, h1, h2⟩ := h
    rw [Option.bind_eq_some'] at h2
    obtain ⟨sprite, hsp, _⟩ := h2
    obtain ⟨st3, h3⟩ := ih st st1 h1 st0
    exact ⟨drawCols x y n sprite 8 st3, by rw [h3, hsp]; rfl⟩

/-- Once the collision flag reaches 1 in a prefix of the row loop, it is 1
in every longer prefix (stickiness of VF within one draw). -/
theorem drawRows_vf_mono {m : Nat → Nat} {i x y : Nat} :
    ∀ n k (st0 stn stk : (Nat → Bool) × Nat), k ≤ n →
      drawRows m i x y n st0 = some stn → drawRows m i x y k st0 = some stk →
      stk.2 = 1 → stn.2 = 1 := by
  intro n
  induction n with
  | zero =>
    intro k st0 stn stk hk h1 h2 hvf
    have hk0 : k = 0 := by omega
    subst hk0
    injection h1 with h1
    injection h2 with h2
    subst h1; subst h2
    exact hvf
  | succ n ih =>
    intro k st0 stn stk hk h1 h2 hvf
    by_cases hkn : k = n + 1
    · subst hkn
      rw [h1] at h2
      injection h2 with h2
      subst h2
      exact hvf
    · have hk2 : k ≤ n := by omega
      simp only [drawRows, Option.pure_def, Option.bind_eq_bind'] at h1
      rw [Option.bind_eq_some'] at h1
      obtain ⟨st1, hh1, hh2⟩ := h1
      rw [Option.bind_eq_some'] at hh2
      obtain ⟨sprite, _, h3⟩ := hh2
      injection h3 with h3
      subst h3
      have hst1 := ih k st0 st1 stk hk2 hh1 h2 hvf
      rw [drawCols_snd]
      cases hc : collideRowB sprite x y n 8 st1.1 <;> simp [hc, hst1]

/-- Unfolding Cpu::display_opcode on success. -/
theorem display_opcode_some_elim {cpu : Cpu} {a b n : Nat} {cpu2 : Cpu}
    (h : cpu.display_opcode a b n = some cpu2) :
    ∃ st2, drawRows cpu.memory cpu.i (a % DISPLAY_WIDTH) (b % DISPLAY_HEIGHT) n
        (cpu.display, 0) = some st2 ∧
      cpu2 = { cpu with display := st2.1, v := upd cpu.v V_CARRY_FLAG st2.2,
                        display_modified := true } := by
  simp only [Cpu.display_opcode, Option.pure_def, Option.bind_eq_bind'] at h
  rw [Option.bind_eq_some'] at h
  obtain ⟨st2, h1, h2⟩ := h
  injection h2 with h2
  exact ⟨st2, h1, h2.symm⟩

/-- Full observable effect of Cpu::display_opcode on success: the display
characterization, the collision flag, and the frame (everything else is
untouched). -/
theorem display_opcode_spec {cpu : Cpu} {a b n : Nat} {cpu2 : Cpu}
    (h : cpu.display_opcode a b n = some cpu2) :
    (∀ idx, cpu2.display idx =
        if hitB cpu.memory cpu.i (a % DISPLAY_WIDTH) (b % DISPLAY_HEIGHT) n idx
        then !(cpu.display idx) else cpu.display idx) ∧
    cpu2.v V_CARRY_FLAG =
      (if collideB cpu.memory cpu.i (a % DISPLAY_WIDTH) (b % DISPLAY_HEIGHT) n cpu.display
       then 1 else 0) ∧
    cpu2.memory = cpu.memory ∧ cpu2.i = cpu.i ∧
    cpu2.program_counter = cpu.program_counter ∧ cpu2.stack = cpu.stack ∧
    cpu2.delay_timer = cpu.delay_timer ∧ cpu2.sound_timer = cpu.sound_timer ∧
    cpu2.pressed_keys = cpu.pressed_keys ∧
    (∀ j, j ≠ V_CARRY_FLAG → cpu2.v j = cpu.v j) := by
  obtain ⟨st2, hrows, rfl⟩ := display_opcode_some_elim h
  have hchar := drawRows_char cpu.memory cpu.i _ _ cpu.display n st2 hrows
  refine ⟨hchar.1, ?_, rfl, rfl, rfl, rfl, rfl, rfl, rfl, ?_⟩
  · show upd cpu.v V_CARRY_FLAG st2.2 V_CARRY_FLAG = _
    rw [upd_same]
    exact hchar.2
  · intro j hj
    exact upd_ne _ _ _ hj

/-- If a draw succeeds, it also succeeds from any state with the same memory
and index register. -/
theorem display_opcode_some_of {cpu cpu1 : Cpu} (hmem : cpu1.memory = cpu.memory)
    (hi : cpu1.i = cpu.i) {a b n : Nat} {cpu2 : Cpu}
    (h : cpu.display_opcode a b n = some cpu2) :
    ∃ cpu3, cpu1.display_opcode a b n = some cpu3 := by
  obtain ⟨st2, hrows, _⟩ := display_opcode_some_elim h
  rw [← hmem, ← hi] at hrows
  obtain ⟨st3, h3⟩ := drawRows_isSome n _ st2 hrows (cpu1.display, 0)
  have hgoal : cpu1.display_opcode a b n =
      some { cpu1 with display := st3.1, v := upd cpu1.v V_CARRY_FLAG st3.2,
                       display_modified := true } := by
    simp only [Cpu.display_opcode, Option.pure_def, Option.bind_eq_bind']
    rw [h3]
    rfl
  exact ⟨_, hgoal⟩

/-- Reduction of Cpu::process_opcode on the 8xy4 (add Vx,Vy) arm. -/
theorem process_opcode_add {cpu : Cpu} {rnd c : Nat} (h1 : nib1 c = 8) (h4 : nib4 c = 4) :
    cpu.process_opcode rnd c =
      some { cpu with v := upd (upd cpu.v (nib2 c) ((cpu.v (nib2 c) + cpu.v (nib3 c)) % 256))
                           V_CARRY_FLAG
                           (if 256 ≤ cpu.v (nib2 c) + cpu.v (nib3 c) then 1 else 0) } := by
  simp only [Cpu.process_opcode, h1, h4]
  norm_num

/-- Reduction of Cpu::process_opcode on the 00EE (return) arm: pop the stack
into the program counter, aborting (none) when the stack is empty. -/
theorem process_opcode_ret {cpu : Cpu} {rnd c : Nat} (h1 : nib1 c = 0)
    (h2 : nib2 c = 0) (h3 : nib3 c = 0xE) (h4 : nib4 c = 0xE) :
    cpu.process_opcode rnd c =
      (match cpu.stack with
        | [] => none
        | a :: rest => some { cpu with program_counter := a, stack := rest }) := by
  simp only [Cpu.process_opcode, h1, h2, h3, h4]
  norm_num

/-- Reduction of Cpu::process_opcode on the 2nnn (call) arm: push the
(already advanced) program counter, then jump to nnn. -/
theorem process_opcode_call {cpu : Cpu} {rnd c : Nat} (h1 : nib1 c = 2) :
    cpu.process_opcode rnd c =
      some { cpu with stack := cpu.program_counter :: cpu.stack,
                      program_counter := nnnOf c } := by
  simp only [Cpu.process_opcode, h1]
  norm_num

/-- Reduction of Cpu::process_opcode on the Dxyn (draw) arm. -/
theorem process_opcode_draw {cpu : Cpu} {rnd c : Nat} (h1 : nib1 c = 0xD) :
    cpu.process_opcode rnd c =
      cpu.display_opcode (cpu.v (nib2 c)) (cpu.v (nib3 c)) (nib4 c) := by
  simp only [Cpu.process_opcode, h1]
  norm_num

/-- Reduction of Cpu::process_opcode on the Ex9E (skip if key pressed) arm,
under the in-bounds precondition on Vx. -/
theorem process_opcode_e9e {cpu : Cpu} {rnd c : Nat} (h1 : nib1 c = 0xE)
    (h3 : nib3 c = 9) (h4 : nib4 c = 0xE) (hvx : cpu.v (nib2 c) < KEY_COUNT) :
    cpu.process_opcode rnd c =
      some (if cpu.pressed_keys (cpu.v (nib2 c)) then
              { cpu with program_counter := wrap16 (cpu.program_counter + 2) }
            else cpu) := by
  simp only [Cpu.process_opcode, h1, h3, h4]
  norm_num
  rw [keyRead_of_lt hvx]
  rfl

/-- Reduction of Cpu::process_opcode on the ExA1 (skip if key not pressed)
arm, under the in-bounds precondition on Vx. -/
theorem process_opcode_ea1 {cpu : Cpu} {rnd c : Nat} (h1 : nib1 c = 0xE)
    (h3 : nib3 c = 0xA) (h4 : nib4 c = 1) (hvx : cpu.v (nib2 c) < KEY_COUNT) :
    cpu.process_opcode rnd c =
      some (if !cpu.pressed_keys (cpu.v (nib2 c)) then
              { cpu with program_counter := wrap16 (cpu.program_counter + 2) }
            else cpu) := by
  simp only [Cpu.process_opcode, h1, h3, h4]
  norm_num
  rw [keyRead_of_lt hvx]
  rfl

/-- Reduction of Cpu::process_opcode on the Fx0A (wait for key) arm. -/
theorem process_opcode_f0a {cpu : Cpu} {rnd c : Nat} (h1 : nib1 c = 0xF)
    (h3 : nib3 c = 0) (h4 : nib4 c = 0xA) :
    cpu.process_opcode rnd c =
      (match (List.range KEY_COUNT).find? cpu.pressed_keys with
        | some index => some { cpu with v := upd cpu.v (nib2 c) index }
        | none => some { cpu with program_counter := sub16 cpu.program_counter 2 }) := by
  simp only [Cpu.process_opcode, h1, h3, h4]
  norm_num

/-- Reduction of Cpu::process_opcode on the Fx33 (store BCD) arm. -/
theorem process_opcode_f33 {cpu : Cpu} {rnd c : Nat} (h1 : nib1 c = 0xF)
    (h3 : nib3 c = 3) (h4 : nib4 c = 3) :
    cpu.process_opcode rnd c =
      (do
        let m1 ← memWrite cpu.memory cpu.i (cpu.v (nib2 c) / 100 % 10)
        let m2 ← memWrite m1 (wrap16 (cpu.i + 1)) (cpu.v (nib2 c) / 10 % 10)
        let m3 ← memWrite m2 (wrap16 (cpu.i + 2)) (cpu.v (nib2 c) % 10)
        pure { cpu with memory := m3 }) := by
  simp only [Cpu.process_opcode, h1, h3, h4]
  norm_num

/-- Reduction of Cpu::process_opcode on the Fx55 (store registers) arm. -/
theorem process_opcode_f55 {cpu : Cpu} {rnd c : Nat} (h1 : nib1 c = 0xF)
    (h3 : nib3 c = 5) (h4 : nib4 c = 5) :
    cpu.process_opcode rnd c =
      (do
        let m1 ← storeRegs cpu.memory cpu.i cpu.v (nib2 c + 1)
        pure { cpu with memory := m1 }) := by
  simp only [Cpu.process_opcode, h1, h3, h4]
  norm_num

/-- Reduction of Cpu::process_opcode on the Fx65 (load registers) arm. -/
theorem process_opcode_f65 {cpu : Cpu} {rnd c : Nat} (h1 : nib1 c = 0xF)
    (h3 : nib3 c = 6) (h4 : nib4 c = 5) :
    cpu.process_opcode rnd c =
      (do
        let v1 ← loadRegs cpu.memory cpu.i cpu.v (nib2 c + 1)
        pure { cpu with v := v1 }) := by
  simp only [Cpu.process_opcode, h1, h3, h4]
  norm_num

/-- Every address changed by the Fx55 loop lies in [i, i+k) and inside
memory. -/
theorem storeRegs_frame {mem : Nat → Nat} {i : Nat} {v : Nat → Nat} :
    ∀ k m2, storeRegs mem i v k = some m2 →
      ∀ a, m2 a ≠ mem a → i ≤ a ∧ a < i + k ∧ a < MEMORY_SIZE := by
  intro k
  induction k with
  | zero =>
    intro m2 h a ha
    injection h with h
    subst h
    exact absurd rfl ha
  | succ k ih =>
    intro m2 h a ha
    simp only [storeRegs, Option.bind_eq_bind'] at h
    rw [Option.bind_eq_some'] at h
    obtain ⟨m1, h1, h2⟩ := h
    obtain ⟨hlt, rfl⟩ := memWrite_some h2
    by_cases hai : a = i + k
    · exact ⟨by omega, by omega, by omega⟩
    · rw [upd_ne _ _ _ hai] at ha
      have hih := ih m1 h1 a ha
      exact ⟨hih.1, by omega, hih.2.2⟩

theorem storeRegs_outside {mem : Nat → Nat} {i : Nat} {v : Nat → Nat} {k : Nat}
    {m2 : Nat → Nat} (h : storeRegs mem i v k = some m2) {a : Nat}
    (ha : a < i ∨ i + k ≤ a) : m2 a = mem a := by
  by_contra hne
  have := storeRegs_frame k m2 h a hne
  omega

/-- The Fx65 loop only assigns registers with index below k. -/
theorem loadRegs_frame {mem : Nat → Nat} {i : Nat} {v : Nat → Nat} :
    ∀ k v2, loadRegs mem i v k = some v2 → ∀ j, k ≤ j → v2 j = v j := by
  intro k
  induction k with
  | zero =>
    intro v2 h j _
    injection h with h
    subst h
    rfl
  | succ k ih =>
    intro v2 h j hj
    simp only [loadRegs, Option.pure_def, Option.bind_eq_bind'] at h
    rw [Option.bind_eq_some'] at h
    obtain ⟨v1, h1, h2⟩ := h
    rw [Option.bind_eq_some'] at h2
    obtain ⟨b, _, h3⟩ := h2
    injection h3 with h3
    subst h3
    rw [upd_ne _ _ _ (by omega : j ≠ k)]
    exact ih v1 h1 j (by omega)

theorem wrap16_small {a : Nat} (h : a < 65536) : wrap16 a = a :=
  Nat.mod_eq_of_lt h

/-- Unfolding Cpu::fetch on success: the bytes are in bounds, the opcode is
their big-endian combination, and the program counter has advanced by 2. -/
theorem fetch_some_elim {cpu : Cpu} {c : Nat} {cpuf : Cpu}
    (h : cpu.fetch = some (c, cpuf)) :
    cpu.program_counter + 1 < MEMORY_SIZE ∧
    c = (cpu.memory cpu.program_counter <<< 8) ||| cpu.memory (cpu.program_counter + 1) ∧
    cpuf = { cpu with program_counter := cpu.program_counter + 2 } := by
  simp only [Cpu.fetch, Option.pure_def, Option.bind_eq_bind'] at h
  rw [Option.bind_eq_some'] at h
  obtain ⟨hi, hh1, h2⟩ := h
  rw [Option.bind_eq_some'] at h2
  obtain ⟨lo, hh2, h3⟩ := h2
  obtain ⟨hpc1, rfl⟩ := memRead_some hh1
  obtain ⟨hpc2, rfl⟩ := memRead_some hh2
  injection h3 with h3
  injection h3 with hc hf
  have hw : wrap16 (cpu.program_counter + 2) = cpu.program_counter + 2 := by
    apply wrap16_small
    simp only [MEMORY_SIZE] at hpc2
    omega
  rw [hw] at hf
  exact ⟨hpc2, hc.symm, hf.symm⟩

/-- Composing a cycle from a successful fetch. -/
theorem cycle_of_fetch {cpu cpu0f : Cpu} {tf : Bool} {rnd c : Nat}
    (hf : (if tf then cpu.process_timers else cpu).fetch = some (c, cpu0f)) :
    cpu.cycle tf rnd = cpu0f.process_opcode rnd c := by
  simp only [Cpu.cycle, Option.bind_eq_bind']
  rw [hf]
  rfl

/-- Fetching after a timer tick fetches the same opcode (the tick touches
neither memory nor the program counter). -/
theorem fetch_timers (cpu : Cpu) :
    (cpu.process_timers).fetch =
      (cpu.fetch).map (fun pr => (pr.1, pr.2.process_timers)) := by
  simp only [Cpu.fetch, Cpu.process_timers]
  cases h1 : memRead cpu.memory cpu.program_counter with
  | none => rfl
  | some hi =>
    cases h2 : memRead cpu.memory (cpu.program_counter + 1) with
    | none => rfl
    | some lo => rfl

set_option maxHeartbeats 3200000 in
/-- Executing any instruction other than Fx15 (set delay) leaves the delay
timer unchanged, and any instruction other than Fx18 (set sound) leaves the
sound timer unchanged. -/
theorem process_opcode_timers_frame {cpu : Cpu} {rnd c : Nat} {cpu2 : Cpu}
    (h : cpu.process_opcode rnd c = some cpu2) :
    (¬(nib1 c = 0xF ∧ nib3 c = 1 ∧ nib4 c = 5) → cpu2.delay_timer = cpu.delay_timer) ∧
    (¬(nib1 c = 0xF ∧ nib3 c = 1 ∧ nib4 c = 8) → cpu2.sound_timer = cpu.sound_timer) := by
  unfold Cpu.process_opcode at h
  by_cases hc1 : nib1 c = 0 ∧ nib2 c = 0 ∧ nib3 c = 0xE ∧ nib4 c = 0
  · rw [if_pos hc1] at h
    injection h with h
    subst h
    exact ⟨fun _ => rfl, fun _ => rfl⟩
  rw [if_neg hc1] at h
  by_cases hc2 : nib1 c = 0 ∧ nib2 c = 0 ∧ nib3 c = 0xE ∧ nib4 c = 0xE
  · rw [if_pos hc2] at h
    rcases hstack : cpu.stack with _ | ⟨a, rest⟩
    · rw [hstack] at h
      exact Option.noConfusion h
    · rw [hstack] at h
      injection h with h
      subst h
      exact ⟨fun _ => rfl, fun _ => rfl⟩
  rw [if_neg hc2] at h
  by_cases hc3 : nib1 c = 1
  · rw [if_pos hc3] at h
    injection h with h
    subst h
    exact ⟨fun _ => rfl, fun _ => rfl⟩
  rw [if_neg hc3] at h
  by_cases hc4 : nib1 c = 2
  · rw [if_pos hc4] at h
    injection h with h
    subst h
    exact ⟨fun _ => rfl, fun _ => rfl⟩
  rw [if_neg hc4] at h
  by_cases hc5 : nib1 c = 3
  · rw [if_pos hc5] at h
    injection h with h
    subst h
    exact ⟨fun _ => by split <;> rfl, fun _ => by split <;> rfl⟩
  rw [if_neg hc5] at h
  by_cases hc6 : nib1 c = 4
  · rw [if_pos hc6] at h
    injection h with h
    subst h
    exact ⟨fun _ => by split <;> rfl, fun _ => by split <;> rfl⟩
  rw [if_neg hc6] at h
  by_cases hc7 : nib1 c = 5 ∧ nib4 c = 0
  · rw [if_pos hc7] at h
    injection h with h
    subst h
    exact ⟨fun _ => by split <;> rfl, fun _ => by split <;> rfl⟩
  rw [if_neg hc7] at h
  by_cases hc8 : nib1 c = 6
  · rw [if_pos hc8] at h
    injection h with h
    subst h
    exact ⟨fun _ => rfl, fun _ => rfl⟩
  rw [if_neg hc8] at h
  by_cases hc9 : nib1 c = 7
  · rw [if_pos hc9] at h
    injection h with h
    subst h
    exact ⟨fun _ => rfl, fun _ => rfl⟩
  rw [if_neg hc9] at h
  by_cases hc10 : nib1 c = 8 ∧ nib4 c = 0
  · rw [if_pos hc10] at h
    injection h with h
    subst h
    exact ⟨fun _ => rfl, fun _ => rfl⟩
  rw [if_neg hc10] at h
  by_cases hc11 : nib1 c = 8 ∧ nib4 c = 1
  · rw [if_pos hc11] at h
    injection h with h
    subst h
    exact ⟨fun _ => rfl, fun _ => rfl⟩
  rw [if_neg hc11] at h
  by_cases hc12 : nib1 c = 8 ∧ nib4 c = 2
  · rw [if_pos hc12] at h
    injection h with h
    subst h
    exact ⟨fun _ => rfl, fun _ => rfl⟩
  rw [if_neg hc12] at h
  by_cases hc13 : nib1 c = 8 ∧ nib4 c = 3
  · rw [if_pos hc13] at h
    injection h with h
    subst h
    exact ⟨fun _ => rfl, fun _ => rfl⟩
  rw [if_neg hc13] at h
  by_cases hc14 : nib1 c = 8 ∧ nib4 c = 4
  · rw [if_pos hc14] at h
    injection h with h
    subst h
    exact ⟨fun _ => rfl, fun _ => rfl⟩
  rw [if_neg hc14] at h
  by_cases hc15 : nib1 c = 8 ∧ nib4 c = 5
  · rw [if_pos hc15] at h
    injection h with h
    subst h
    exact ⟨fun _ => rfl, fun _ => rfl⟩
  rw [if_neg hc15] at h
  by_cases hc16 : nib1 c = 8 ∧ nib4 c = 6
  · rw [if_pos hc16] at h
    injection h with h
    subst h
    exact ⟨fun _ => rfl, fun _ => rfl⟩
  rw [if_neg hc16] at h
  by_cases hc17 : nib1 c = 8 ∧ nib4 c = 7
  · rw [if_pos hc17] at h
    injection h with h
    subst h
    exact ⟨fun _ => rfl, fun _ => rfl⟩
  rw [if_neg hc17] at h
  by_cases hc18 : nib1 c = 8 ∧ nib4 c = 0xE
  · rw [if_pos hc18] at h
    injection h with h
    subst h
    exact ⟨fun _ => rfl, fun _ => rfl⟩
  rw [if_neg hc18] at h
  by_cases hc19 : nib1 c = 9 ∧ nib4 c = 0
  · rw [if_pos hc19] at h
    injection h with h
    subst h
    exact ⟨fun _ => by split <;> rfl, fun _ => by split <;> rfl⟩
  rw [if_neg hc19] at h
  by_cases hc20 : nib1 c = 0xA
  · rw [if_pos hc20] at h
    injection h with h
    subst h
    exact ⟨fun _ => rfl, fun _ => rfl⟩
  rw [if_neg hc20] at h
  by_cases hc21 : nib1 c = 0xB
  · rw [if_pos hc21] at h
    injection h with h
    subst h
    exact ⟨fun _ => rfl, fun _ => rfl⟩
  rw [if_neg hc21] at h
  by_cases hc22 : nib1 c = 0xC
  · rw [if_pos hc22] at h
    injection h with h
    subst h
    exact ⟨fun _ => rfl, fun _ => rfl⟩
  rw [if_neg hc22] at h
  by_cases hc23 : nib1 c = 0xD
  · rw [if_pos hc23] at h
    obtain ⟨st2, _, rfl⟩ := display_opcode_some_elim h
    exact ⟨fun _ => rfl, fun _ => rfl⟩
  rw [if_neg hc23] at h
  by_cases hc24 : nib1 c = 0xE ∧ nib3 c = 9 ∧ nib4 c = 0xE
  · rw [if_pos hc24] at h
    simp only [Option.pure_def, Option.bind_eq_bind'] at h
    rw [Option.bind_eq_some'] at h
    obtain ⟨key, hkey, h⟩ := h
    injection h with h
    subst h
    exact ⟨fun _ => by split <;> rfl, fun _ => by split <;> rfl⟩
  rw [if_neg hc24] at h
  by_cases hc25 : nib1 c = 0xE ∧ nib3 c = 0xA ∧ nib4 c = 1
  · rw [if_pos hc25] at h
    simp only [Option.pure_def, Option.bind_eq_bind'] at h
    rw [Option.bind_eq_some'] at h
    obtain ⟨key, hkey, h⟩ := h
    injection h with h
    subst h
    exact ⟨fun _ => by split <;> rfl, fun _ => by split <;> rfl⟩
  rw [if_neg hc25] at h
  by_cases hc26 : nib1 c = 0xF ∧ nib3 c = 0 ∧ nib4 c = 7
  · rw [if_pos hc26] at h
    injection h with h
    subst h
    exact ⟨fun _ => rfl, fun _ => rfl⟩
  rw [if_neg hc26] at h
  by_cases hc27 : nib1 c = 0xF ∧ nib3 c = 0 ∧ nib4 c = 0xA
  · rw [if_pos hc27] at h
    rcases hfind : (List.range KEY_COUNT).find? cpu.pressed_keys with _ | ⟨idx⟩
    · rw [hfind] at h
      injection h with h
      subst h
      exact ⟨fun _ => rfl, fun _ => rfl⟩
    · rw [hfind] at h
      injection h with h
      subst h
      exact ⟨fun _ => rfl, fun _ => rfl⟩
  rw [if_neg hc27] at h
  by_cases hc28 : nib1 c = 0xF ∧ nib3 c = 1 ∧ nib4 c = 5
  · rw [if_pos hc28] at h
    injection h with h
    subst h
    exact ⟨fun hn => absurd hc28 hn, fun _ => rfl⟩
  rw [if_neg hc28] at h
  by_cases hc29 : nib1 c = 0xF ∧ nib3 c = 1 ∧ nib4 c = 8
  · rw [if_pos hc29] at h
    injection h with h
    subst h
    exact ⟨fun _ => rfl, fun hn => absurd hc29 hn⟩
  rw [if_neg hc29] at h
  by_cases hc30 : nib1 c = 0xF ∧ nib3 c = 1 ∧ nib4 c = 0xE
  · rw [if_pos hc30] at h
    injection h with h
    subst h
    exact ⟨fun _ => rfl, fun _ => rfl⟩
  rw [if_neg hc30] at h
  by_cases hc31 : nib1 c = 0xF ∧ nib3 c = 2 ∧ nib4 c = 9
  · rw [if_pos hc31] at h
    injection h with h
    subst h
    exact ⟨fun _ => rfl, fun _ => rfl⟩
  rw [if_neg hc31] at h
  by_cases hc32 : nib1 c = 0xF ∧ nib3 c = 3 ∧ nib4 c = 3
  · rw [if_pos hc32] at h
    simp only [Option.pure_def, Option.bind_eq_bind'] at h
    rw [Option.bind_eq_some'] at h
    obtain ⟨m1, hm1, h⟩ := h
    rw [Option.bind_eq_some'] at h
    obtain ⟨m2, hm2, h⟩ := h
    rw [Option.bind_eq_some'] at h
    obtain ⟨m3, hm3, h⟩ := h
    injection h with h
    subst h
    exact ⟨fun _ => rfl, fun _ => rfl⟩
  rw [if_neg hc32] at h
  by_cases hc33 : nib1 c = 0xF ∧ nib3 c = 5 ∧ nib4 c = 5
  · rw [if_pos hc33] at h
    simp only [Option.pure_def, Option.bind_eq_bind'] at h
    rw [Option.bind_eq_some'] at h
    obtain ⟨w1, hw1, h⟩ := h
    injection h with h
    subst h
    exact ⟨fun _ => rfl, fun _ => rfl⟩
  rw [if_neg hc33] at h
  by_cases hc34 : nib1 c = 0xF ∧ nib3 c = 6 ∧ nib4 c = 5
  · rw [if_pos hc34] at h
    simp only [Option.pure_def, Option.bind_eq_bind'] at h
    rw [Option.bind_eq_some'] at h
    obtain ⟨w1, hw1, h⟩ := h
    injection h with h
    subst h
    exact ⟨fun _ => rfl, fun _ => rfl⟩
  rw [if_neg hc34] at h
  injection h with h
  subst h
  exact ⟨fun _ => rfl, fun _ => rfl⟩

/-- Bridging lemma: the collision test holds exactly when some targeted
in-bounds pixel index is on in d. -/
theorem collideB_iff_exists {m : Nat → Nat} {i x y n : Nat} {d : Nat → Bool} :
    collideB m i x y n d = true ↔
      ∃ idx, hitB m i x y n idx = true ∧ d idx = true := by
  rw [collideB_iff]
  constructor
  · rintro ⟨row, hrow, hr⟩
    rw [collideRowB_iff] at hr
    obtain ⟨col, h8, hb, hxw, hyh, hd⟩ := hr
    refine ⟨(x + col) + DISPLAY_WIDTH * (y + row), ?_, hd⟩
    rw [hitB_iff]
    refine ⟨row, hrow, ?_⟩
    rw [hitRowB_iff]
    exact ⟨col, h8, hb, hxw, hyh, rfl⟩
  · rintro ⟨idx, hhit, hd⟩
    rw [hitB_iff] at hhit
    obtain ⟨row, hrow, hr⟩ := hhit
    rw [hitRowB_iff] at hr
    obtain ⟨col, h8, hb, hxw, hyh, heq⟩ := hr
    refine ⟨row, hrow, ?_⟩
    rw [collideRowB_iff]
    exact ⟨col, h8, hb, hxw, hyh, by rw [← heq]; exact hd⟩

/-- One cycle() call runs process_opcode on an execution state that differs
from the starting state only in the advanced program counter and, when the
60 Hz gate fires, the decremented timers. -/
theorem cycle_exec_state (tf : Bool) (rnd : Nat) {cpu : Cpu} {c : Nat} {cpuf : Cpu}
    (hf : cpu.fetch = some (c, cpuf)) :
    ∃ X : Cpu, cpu.cycle tf rnd = X.process_opcode rnd c ∧
      X.memory = cpu.memory ∧
      X.program_counter = cpu.program_counter + 2 ∧
      X.v = cpu.v ∧ X.pressed_keys = cpu.pressed_keys ∧
      X.i = cpu.i ∧ X.stack = cpu.stack ∧
      X.delay_timer = (if tf then cpu.delay_timer - 1 else cpu.delay_timer) ∧
      X.sound_timer = (if tf then cpu.sound_timer - 1 else cpu.sound_timer) ∧
      cpu.program_counter + 1 < MEMORY_SIZE := by
  have helim := fetch_some_elim hf
  obtain ⟨hpc, hcv, hfv⟩ := helim
  cases tf with
  | false =>
    refine ⟨cpuf, ?_, ?_, ?_, ?_, ?_, ?_, ?_, ?_, ?_, hpc⟩
    · apply cycle_of_fetch
      simpa using hf
    all_goals rw [hfv]
    all_goals simp
  | true =>
    refine ⟨cpuf.process_timers, ?_, ?_, ?_, ?_, ?_, ?_, ?_, ?_, ?_, hpc⟩
    · apply cycle_of_fetch
      have : (if true = true then cpu.process_timers else cpu) = cpu.process_timers := rfl
      rw [this, fetch_timers, hf]
      rfl
    all_goals rw [hfv]
    all_goals simp [Cpu.process_timers]

theorem sub16_add_two {p : Nat} (h : p < 65536) : sub16 (p + 2) 2 = p := by
  unfold sub16
  omega


/-- C1 (counterexample): the claim says no memory write ever occurs below
0x200.  But the program A050, F133 (loadable via Cpu::new) sets I = 0x50 and
then executes store-BCD, which after two cycles overwrites the font byte
0xF0 at address 0x50 < 0x200 with 0. -/
theorem C1_counterexample :
    Cpu.new romC1 = some cpuC1 ∧
    ((cpuC1.cycle false 0).bind (fun s => s.cycle false 0)).map
        (fun s => s.memory 0x50) = some 0 ∧
    cpuC1.memory 0x50 = 0xF0 ∧ (0x50 : Nat) < 0x200 ∧ (0 : Nat) ≠ 0xF0 :=
  ⟨rfl, rfl, rfl, by decide, by decide⟩

/-- C1 (amended): the store-BCD (Fx33) and store-registers (Fx55) opcodes
write only the addresses I..I+2 (resp. I..I+x), and every successful write
stays inside the 4096-byte array (an out-of-range index aborts execution
instead of writing); the region written is not restricted to lie at or above
0x200 - it is below 0x200 whenever I is. -/
theorem C1_store_writes_bounded (rnd c : Nat) (cpu cpu2 : Cpu) :
    ((nib1 c = 0xF ∧ nib3 c = 3 ∧ nib4 c = 3) → cpu.process_opcode rnd c = some cpu2 →
      ∀ a, cpu2.memory a ≠ cpu.memory a →
        cpu.i ≤ a ∧ a ≤ cpu.i + 2 ∧ a < MEMORY_SIZE) ∧
    ((nib1 c = 0xF ∧ nib3 c = 5 ∧ nib4 c = 5) → cpu.process_opcode rnd c = some cpu2 →
      ∀ a, cpu2.memory a ≠ cpu.memory a →
        cpu.i ≤ a ∧ a ≤ cpu.i + nib2 c ∧ a < MEMORY_SIZE) := by
  constructor
  · rintro ⟨h1, h3, h4⟩ h
    rw [process_opcode_f33 h1 h3 h4] at h
    simp only [Option.pure_def, Option.bind_eq_bind'] at h
    rw [Option.bind_eq_some'] at h
    obtain ⟨m1, hm1, h⟩ := h
    rw [Option.bind_eq_some'] at h
    obtain ⟨m2, hm2, h⟩ := h
    rw [Option.bind_eq_some'] at h
    obtain ⟨m3, hm3, h⟩ := h
    injection h with h
    subst h
    obtain ⟨hi1, rfl⟩ := memWrite_some hm1
    have hb1 : cpu.i < 4096 := by simpa [MEMORY_SIZE] using hi1
    have hw1 : wrap16 (cpu.i + 1) = cpu.i + 1 := wrap16_small (by omega)
    rw [hw1] at hm2
    obtain ⟨hi2, rfl⟩ := memWrite_some hm2
    have hw2 : wrap16 (cpu.i + 2) = cpu.i + 2 := wrap16_small (by omega)
    rw [hw2] at hm3
    obtain ⟨hi3, rfl⟩ := memWrite_some hm3
    intro a ha
    by_cases ha3 : a = cpu.i + 2
    · subst ha3
      exact ⟨by omega, by omega, hi3⟩
    by_cases ha2 : a = cpu.i + 1
    · subst ha2
      exact ⟨by omega, by omega, hi2⟩
    by_cases ha1 : a = cpu.i
    · subst ha1
      exact ⟨by omega, by omega, hi1⟩
    exfalso
    apply ha
    show upd _ _ _ a = cpu.memory a
    rw [upd_ne _ _ _ ha3, upd_ne _ _ _ ha2, upd_ne _ _ _ ha1]
  · rintro ⟨h1, h3, h4⟩ h
    rw [process_opcode_f55 h1 h3 h4] at h
    simp only [Option.pure_def, Option.bind_eq_bind'] at h
    rw [Option.bind_eq_some'] at h
    obtain ⟨m1, hm1, h⟩ := h
    injection h with h
    subst h
    intro a ha
    have hfr := storeRegs_frame (nib2 c + 1) m1 hm1 a ha
    exact ⟨hfr.1, by omega, hfr.2.2⟩

/-- C1 (witness): executing 0xF033 on a state with I = 0x300, V0 = 123
changes address 0x300, and the amended bound theorem applies there. -/
theorem C1_witness :
    (nib1 0xF033 = 0xF ∧ nib3 0xF033 = 3 ∧ nib4 0xF033 = 3) ∧
    testCpuRegs.process_opcode 0 0xF033 = some testCpuBcdRes ∧
    testCpuBcdRes.memory 0x300 ≠ testCpuRegs.memory 0x300 ∧
    (testCpuRegs.i ≤ 0x300 ∧ 0x300 ≤ testCpuRegs.i + 2 ∧ 0x300 < MEMORY_SIZE) := by
  refine ⟨⟨rfl, rfl, rfl⟩, rfl, by decide, ?_⟩
  exact (C1_store_writes_bounded 0 0xF033 testCpuRegs testCpuBcdRes).1
    ⟨rfl, rfl, rfl⟩ rfl 0x300 (by decide)

/-- C2 (counterexample): for x = 15 the claim fails: with V15 = 5, V0 = 3,
executing 0x8F04 (add V15,V0) leaves V15 = 0 (the carry flag), not
(5+3) mod 256 = 8, because the flag write overwrites the sum. -/
theorem C2_counterexample :
    (cpuC2.process_opcode 0 0x8F04).map (fun s => s.v (nib2 0x8F04)) = some 0 ∧
    cpuC2.v (nib2 0x8F04) = 5 ∧ cpuC2.v (nib3 0x8F04) = 3 ∧
    (5 + 3) % 256 = 8 ∧ (0 : Nat) ≠ 8 :=
  ⟨rfl, rfl, rfl, by decide, by decide⟩

/-- C2 (amended): for all register indices x, y and 8-bit values a = Vx,
b = Vy, executing add Vx,Vy (8xy4) sets VF to 1 iff a+b > 255 (for every x),
and for x ≠ 15 leaves Vx equal to (a+b) mod 256; when x = 15 the flag write
overwrites the sum. -/
theorem C2_add_overflow_spec (rnd c : Nat) (cpu : Cpu) (a b : Nat)
    (h1 : nib1 c = 8) (h4 : nib4 c = 4) (ha : cpu.v (nib2 c) = a)
    (hb : cpu.v (nib3 c) = b) (_ha8 : a < 256) (_hb8 : b < 256) :
    ∃ cpu2, cpu.process_opcode rnd c = some cpu2 ∧
      cpu2.v V_CARRY_FLAG = (if 255 < a + b then 1 else 0) ∧
      (nib2 c ≠ V_CARRY_FLAG → cpu2.v (nib2 c) = (a + b) % 256) := by
  refine ⟨_, process_opcode_add h1 h4, ?_, ?_⟩
  · simp [upd, ha, hb]
    split <;> split <;> omega
  · intro hx
    simp [upd, hx, ha, hb]

/-- C2 (witness): 0x8124 (add V1,V2) with V1 = 200, V2 = 100. -/
theorem C2_witness :
    nib1 0x8124 = 8 ∧ nib4 0x8124 = 4 ∧ cpuAdd.v (nib2 0x8124) = 200 ∧
    cpuAdd.v (nib3 0x8124) = 100 ∧ 200 < 256 ∧ 100 < 256 ∧
    (∃ cpu2, cpuAdd.process_opcode 0 0x8124 = some cpu2 ∧
      cpu2.v V_CARRY_FLAG = (if 255 < 200 + 100 then 1 else 0) ∧
      (nib2 0x8124 ≠ V_CARRY_FLAG → cpu2.v (nib2 0x8124) = (200 + 100) % 256)) := by
  refine ⟨rfl, rfl, rfl, rfl, by decide, by decide, ?_⟩
  exact C2_add_overflow_spec 0 0x8124 cpuAdd 200 100 rfl rfl rfl rfl
    (by decide) (by decide)

/-- C6: executing 00EE with an empty call stack aborts (none - the unwrap
panic); with a non-empty stack it pops the top of the stack into the program
counter without fault. -/
theorem C6_return_empty_fatal (rnd c : Nat) (cpu : Cpu)
    (h1 : nib1 c = 0) (h2 : nib2 c = 0) (h3 : nib3 c = 0xE) (h4 : nib4 c = 0xE) :
    (cpu.stack = [] → cpu.process_opcode rnd c = none) ∧
    (∀ a rest, cpu.stack = a :: rest →
      cpu.process_opcode rnd c =
        some { cpu with program_counter := a, stack := rest }) := by
  constructor
  · intro hs
    rw [process_opcode_ret h1 h2 h3 h4, hs]
  · intro a rest hs
    rw [process_opcode_ret h1 h2 h3 h4, hs]

/-- C6 (witness): 0x00EE on the empty-stack test state aborts; on the state
with stack [0x300] it pops 0x300 into the program counter. -/
theorem C6_witness :
    (nib1 0x00EE = 0 ∧ nib2 0x00EE = 0 ∧ nib3 0x00EE = 0xE ∧ nib4 0x00EE = 0xE) ∧
    (testCpu.stack = [] → testCpu.process_opcode 0 0x00EE = none) ∧
    (∀ a rest, testCpuStack.stack = a :: rest →
      testCpuStack.process_opcode 0 0x00EE =
        some { testCpuStack with program_counter := a, stack := rest }) := by
  refine ⟨⟨rfl, rfl, rfl, rfl⟩, ?_, ?_⟩
  · exact (C6_return_empty_fatal 0 0x00EE testCpu rfl rfl rfl rfl).1
  · exact (C6_return_empty_fatal 0 0x00EE testCpuStack rfl rfl rfl rfl).2

/-- C10: Fx55 and Fx65 leave the index register I unchanged (no
post-increment quirk); Fx55 modifies no memory cell outside addresses
I..I+x, and Fx65 modifies no register with index above x. -/
theorem C10_store_load_frame (rnd c : Nat) (cpu cpu2 : Cpu) :
    ((nib1 c = 0xF ∧ nib3 c = 5 ∧ nib4 c = 5) → cpu.process_opcode rnd c = some cpu2 →
      cpu2.i = cpu.i ∧
      ∀ a, a < cpu.i ∨ cpu.i + nib2 c < a → cpu2.memory a = cpu.memory a) ∧
    ((nib1 c = 0xF ∧ nib3 c = 6 ∧ nib4 c = 5) → cpu.process_opcode rnd c = some cpu2 →
      cpu2.i = cpu.i ∧
      ∀ j, nib2 c < j → cpu2.v j = cpu.v j) := by
  constructor
  · rintro ⟨h1, h3, h4⟩ h
    rw [process_opcode_f55 h1 h3 h4] at h
    simp only [Option.pure_def, Option.bind_eq_bind'] at h
    rw [Option.bind_eq_some'] at h
    obtain ⟨m1, hm1, h⟩ := h
    injection h with h
    subst h
    refine ⟨rfl, ?_⟩
    intro a ha
    exact storeRegs_outside hm1 (by omega)
  · rintro ⟨h1, h3, h4⟩ h
    rw [process_opcode_f65 h1 h3 h4] at h
    simp only [Option.pure_def, Option.bind_eq_bind'] at h
    rw [Option.bind_eq_some'] at h
    obtain ⟨v1, hv1, h⟩ := h
    injection h with h
    subst h
    refine ⟨rfl, ?_⟩
    intro j hj
    exact loadRegs_frame (nib2 c + 1) v1 hv1 j (by omega)

/-- C10 (witness): 0xF155 (store V0..V1) on the I = 0x300 test state leaves
I unchanged and memory outside 0x300..0x301 untouched. -/
theorem C10_witness :
    (nib1 0xF155 = 0xF ∧ nib3 0xF155 = 5 ∧ nib4 0xF155 = 5) ∧
    testCpuRegs.process_opcode 0 0xF155 = some testCpuRegsRes ∧
    (testCpuRegsRes.i = testCpuRegs.i ∧
      ∀ a, a < testCpuRegs.i ∨ testCpuRegs.i + nib2 0xF155 < a →
        testCpuRegsRes.memory a = testCpuRegs.memory a) := by
  refine ⟨⟨rfl, rfl, rfl⟩, rfl, ?_⟩
  exact (C10_store_load_frame 0 0xF155 testCpuRegs testCpuRegsRes).1
    ⟨rfl, rfl, rfl⟩ rfl


/-- C3: for every draw, the origin is reduced mod 64/32 before drawing; each
set sprite bit whose target (wrapped origin plus bit offset) is out of the
64x32 grid is dropped; each in-bounds set bit XOR-toggles its target pixel
(all other pixels are untouched); VF starts the draw at 0 and ends 1 exactly
when some in-bounds set bit targets a pixel that was already on, and once the
flag reaches 1 in any prefix of the row loop it stays 1 for the rest of the
draw. -/
theorem C3_draw_spec (cpu : Cpu) (vx vy n : Nat) (cpu2 : Cpu)
    (h : cpu.display_opcode vx vy n = some cpu2) :
    (∀ idx, cpu2.display idx =
        if hitB cpu.memory cpu.i (vx % DISPLAY_WIDTH) (vy % DISPLAY_HEIGHT) n idx
        then !(cpu.display idx) else cpu.display idx) ∧
    cpu2.v V_CARRY_FLAG =
      (if collideB cpu.memory cpu.i (vx % DISPLAY_WIDTH) (vy % DISPLAY_HEIGHT) n
          cpu.display
       then 1 else 0) ∧
    (∀ k stk, k ≤ n →
      drawRows cpu.memory cpu.i (vx % DISPLAY_WIDTH) (vy % DISPLAY_HEIGHT) k
        (cpu.display, 0) = some stk →
      stk.2 = 1 → cpu2.v V_CARRY_FLAG = 1) := by
  obtain ⟨st2, hrows, rfl⟩ := display_opcode_some_elim h
  have hchar := drawRows_char cpu.memory cpu.i _ _ cpu.display n st2 hrows
  refine ⟨hchar.1, ?_, ?_⟩
  · show upd cpu.v V_CARRY_FLAG st2.2 V_CARRY_FLAG = _
    rw [upd_same]
    exact hchar.2
  · intro k stk hk hdr hvf
    show upd cpu.v V_CARRY_FLAG st2.2 V_CARRY_FLAG = 1
    rw [upd_same]
    exact drawRows_vf_mono n k (cpu.display, 0) st2 stk hk hrows hdr hvf

/-- C3 (witness): drawing the sprite byte 0x81 once at (62, 0). -/
theorem C3_witness :
    testCpuDraw.display_opcode 62 0 1 = some testCpuDrawRes ∧
    ((∀ idx, testCpuDrawRes.display idx =
        if hitB testCpuDraw.memory testCpuDraw.i (62 % DISPLAY_WIDTH)
            (0 % DISPLAY_HEIGHT) 1 idx
        then !(testCpuDraw.display idx) else testCpuDraw.display idx) ∧
      testCpuDrawRes.v V_CARRY_FLAG =
        (if collideB testCpuDraw.memory testCpuDraw.i (62 % DISPLAY_WIDTH)
            (0 % DISPLAY_HEIGHT) 1 testCpuDraw.display
         then 1 else 0) ∧
      (∀ k stk, k ≤ 1 →
        drawRows testCpuDraw.memory testCpuDraw.i (62 % DISPLAY_WIDTH)
          (0 % DISPLAY_HEIGHT) k (testCpuDraw.display, 0) = some stk →
        stk.2 = 1 → testCpuDrawRes.v V_CARRY_FLAG = 1)) := by
  have hw : testCpuDraw.display_opcode 62 0 1 = some testCpuDrawRes := rfl
  exact ⟨hw, C3_draw_spec testCpuDraw 62 0 1 testCpuDrawRes hw⟩

/-- C4: drawing the same sprite at the same position twice (sprite memory
and I are untouched by a draw) always succeeds on the second pass, restores
every pixel to its state before the first draw, and the second VF is 1
exactly when some targeted in-bounds pixel is on after the first draw
(i.e. was toggled on by it). -/
theorem C4_draw_twice_restores (cpu : Cpu) (vx vy n : Nat) (cpu1 : Cpu)
    (h1 : cpu.display_opcode vx vy n = some cpu1) :
    ∃ cpu2, cpu1.display_opcode vx vy n = some cpu2 ∧
      (∀ idx, cpu2.display idx = cpu.display idx) ∧
      (cpu2.v V_CARRY_FLAG = 1 ↔
        ∃ idx, hitB cpu.memory cpu.i (vx % DISPLAY_WIDTH) (vy % DISPLAY_HEIGHT) n idx
            = true ∧ cpu1.display idx = true) := by
  obtain ⟨hd1, hv1, hmem1, hi1, _, _, _, _, _, _⟩ := display_opcode_spec h1
  obtain ⟨cpu2, h2⟩ := display_opcode_some_of hmem1 hi1 h1
  obtain ⟨hd2, hv2, _, _, _, _, _, _, _, _⟩ := display_opcode_spec h2
  refine ⟨cpu2, h2, ?_, ?_⟩
  · intro idx
    rw [hd2 idx, hmem1, hi1, hd1 idx]
    cases hhit : hitB cpu.memory cpu.i (vx % DISPLAY_WIDTH) (vy % DISPLAY_HEIGHT) n idx
    · simp [hhit]
    · simp [hhit]
  · rw [hv2, hmem1, hi1]
    constructor
    · intro hone
      by_cases hcol : collideB cpu.memory cpu.i (vx % DISPLAY_WIDTH)
          (vy % DISPLAY_HEIGHT) n cpu1.display = true
      · exact collideB_iff_exists.mp hcol
      · rw [if_neg hcol] at hone
        exact absurd hone (by decide)
    · intro hex
      rw [if_pos (collideB_iff_exists.mpr hex)]

/-- C4 (witness): drawing the 0x81 sprite at (62, 0) twice. -/
theorem C4_witness :
    testCpuDraw.display_opcode 62 0 1 = some testCpuDrawRes ∧
    (∃ cpu2, testCpuDrawRes.display_opcode 62 0 1 = some cpu2 ∧
      (∀ idx, cpu2.display idx = testCpuDraw.display idx) ∧
      (cpu2.v V_CARRY_FLAG = 1 ↔
        ∃ idx, hitB testCpuDraw.memory testCpuDraw.i (62 % DISPLAY_WIDTH)
            (0 % DISPLAY_HEIGHT) 1 idx = true ∧ testCpuDrawRes.display idx = true)) := by
  have hw : testCpuDraw.display_opcode 62 0 1 = some testCpuDrawRes := rfl
  exact ⟨hw, C4_draw_twice_restores testCpuDraw 62 0 1 testCpuDrawRes hw⟩


/-- C5: after fetching a call instruction 2nnn at address p (the fetch has
already advanced the program counter to p+2), executing it pushes p+2 and
jumps to nnn; a later 00EE executed from any state carrying that same stack
(no intervening stack operations) restores the program counter to p+2, the
address immediately following the call. -/
theorem C5_call_then_return (rnd rnd2 : Nat) (cpu : Cpu) (c : Nat) (cpuf : Cpu)
    (hf : cpu.fetch = some (c, cpuf)) (hcall : nib1 c = 2) :
    ∃ cpu1, cpuf.process_opcode rnd c = some cpu1 ∧
      cpu1.stack = (cpu.program_counter + 2) :: cpu.stack ∧
      cpu1.program_counter = nnnOf c ∧
      ∀ cpu2 : Cpu, cpu2.stack = cpu1.stack →
        ∃ cpu3, cpu2.process_opcode rnd2 0x00EE = some cpu3 ∧
          cpu3.program_counter = cpu.program_counter + 2 ∧
          cpu3.stack = cpu.stack := by
  obtain ⟨hpc, hcv, rfl⟩ := fetch_some_elim hf
  refine ⟨_, process_opcode_call hcall, rfl, rfl, ?_⟩
  intro cpu2 hs
  have e1 : nib1 0x00EE = 0 := by decide
  have e2 : nib2 0x00EE = 0 := by decide
  have e3 : nib3 0x00EE = 0xE := by decide
  have e4 : nib4 0x00EE = 0xE := by decide
  have hret : cpu2.process_opcode rnd2 0x00EE =
      some { cpu2 with program_counter := cpu.program_counter + 2,
                       stack := cpu.stack } := by
    rw [process_opcode_ret e1 e2 e3 e4, hs]
  exact ⟨_, hret, rfl, rfl⟩

/-- C5 (witness): fetching and calling 0x2345 from 0x200, then returning. -/
theorem C5_witness :
    testCpuCall.fetch = some (0x2345, testCpuCallF) ∧ nib1 0x2345 = 2 ∧
    (∃ cpu1, testCpuCallF.process_opcode 0 0x2345 = some cpu1 ∧
      cpu1.stack = (testCpuCall.program_counter + 2) :: testCpuCall.stack ∧
      cpu1.program_counter = nnnOf 0x2345 ∧
      ∀ cpu2 : Cpu, cpu2.stack = cpu1.stack →
        ∃ cpu3, cpu2.process_opcode 0 0x00EE = some cpu3 ∧
          cpu3.program_counter = testCpuCall.program_counter + 2 ∧
          cpu3.stack = testCpuCall.stack) := by
  have hw : testCpuCall.fetch = some (0x2345, testCpuCallF) := rfl
  exact ⟨hw, rfl, C5_call_then_return 0 0 testCpuCall 0x2345 testCpuCallF hw rfl⟩

/-- C7: a cycle executing wait-key (Fx0A) with no key pressed leaves the
program counter net unchanged (and memory untouched), so the same
instruction re-executes on the next cycle; with at least one key pressed it
stores the lowest-indexed pressed key into Vx and the program counter ends
at the next instruction. -/
theorem C7_wait_key (tf : Bool) (rnd : Nat) (cpu : Cpu) (c : Nat) (cpuf : Cpu)
    (hf : cpu.fetch = some (c, cpuf)) (h1 : nib1 c = 0xF) (h3 : nib3 c = 0)
    (h4 : nib4 c = 0xA) :
    ((∀ k, k < KEY_COUNT → cpu.pressed_keys k = false) →
      ∃ cpu2, cpu.cycle tf rnd = some cpu2 ∧
        cpu2.program_counter = cpu.program_counter ∧
        cpu2.memory = cpu.memory) ∧
    (∀ k, k < KEY_COUNT → cpu.pressed_keys k = true →
      (∀ j, j < k → cpu.pressed_keys j = false) →
      ∃ cpu2, cpu.cycle tf rnd = some cpu2 ∧
        cpu2.v (nib2 c) = k ∧
        cpu2.program_counter = cpu.program_counter + 2) := by
  obtain ⟨X, hcyc, hXm, hXpc, hXv, hXk, hXi, hXs, hXd, hXsnd, hpcb⟩ :=
    cycle_exec_state tf rnd hf
  constructor
  · intro hnone
    have hfind : (List.range KEY_COUNT).find? X.pressed_keys = none := by
      rw [hXk]
      exact find_range_none hnone
    refine ⟨{ X with program_counter := sub16 X.program_counter 2 }, ?_, ?_, ?_⟩
    · rw [hcyc, process_opcode_f0a h1 h3 h4, hfind]
    · show sub16 X.program_counter 2 = cpu.program_counter
      rw [hXpc]
      exact sub16_add_two (by simp only [MEMORY_SIZE] at hpcb; omega)
    · exact hXm
  · intro k hk hpk hmin
    have hfind : (List.range KEY_COUNT).find? X.pressed_keys = some k := by
      rw [hXk]
      exact find_range_least hk hpk hmin
    refine ⟨{ X with v := upd X.v (nib2 c) k }, ?_, ?_, ?_⟩
    · rw [hcyc, process_opcode_f0a h1 h3 h4, hfind]
    · show upd X.v (nib2 c) k (nib2 c) = k
      exact upd_same _ _ _
    · exact hXpc

/-- C7 (witness): 0xF00A at 0x200 with no key pressed. -/
theorem C7_witness :
    testCpuWait.fetch = some (0xF00A, { testCpuWait with program_counter := 0x202 }) ∧
    nib1 0xF00A = 0xF ∧ nib3 0xF00A = 0 ∧ nib4 0xF00A = 0xA ∧
    (((∀ k, k < KEY_COUNT → testCpuWait.pressed_keys k = false) →
      ∃ cpu2, testCpuWait.cycle false 0 = some cpu2 ∧
        cpu2.program_counter = testCpuWait.program_counter ∧
        cpu2.memory = testCpuWait.memory) ∧
    (∀ k, k < KEY_COUNT → testCpuWait.pressed_keys k = true →
      (∀ j, j < k → testCpuWait.pressed_keys j = false) →
      ∃ cpu2, testCpuWait.cycle false 0 = some cpu2 ∧
        cpu2.v (nib2 0xF00A) = k ∧
        cpu2.program_counter = testCpuWait.program_counter + 2)) := by
  have hw : testCpuWait.fetch =
      some (0xF00A, { testCpuWait with program_counter := 0x202 }) := rfl
  exact ⟨hw, rfl, rfl, rfl,
    C7_wait_key false 0 testCpuWait 0xF00A { testCpuWait with program_counter := 0x202 }
      hw rfl rfl rfl⟩

/-- C8: across one whole cycle() call, each timer is decremented at most
once no matter how much wall-clock time elapsed (the gate fires at most once
per call, modelled by the boolean oracle), a timer at 0 stays 0 (saturating
decrement), and the only opcodes that can move a timer otherwise are the
explicit timer-set instructions Fx15/Fx18, excluded by hypothesis. -/
theorem C8_timer_rate (tf : Bool) (rnd : Nat) (cpu : Cpu) (c : Nat) (cpuf cpu2 : Cpu)
    (hf : cpu.fetch = some (c, cpuf)) (hcyc : cpu.cycle tf rnd = some cpu2)
    (hnd : ¬(nib1 c = 0xF ∧ nib3 c = 1 ∧ nib4 c = 5))
    (hns : ¬(nib1 c = 0xF ∧ nib3 c = 1 ∧ nib4 c = 8)) :
    (cpu.delay_timer - 1 ≤ cpu2.delay_timer ∧ cpu2.delay_timer ≤ cpu.delay_timer ∧
      (cpu.delay_timer = 0 → cpu2.delay_timer = 0)) ∧
    (cpu.sound_timer - 1 ≤ cpu2.sound_timer ∧ cpu2.sound_timer ≤ cpu.sound_timer ∧
      (cpu.sound_timer = 0 → cpu2.sound_timer = 0)) := by
  obtain ⟨X, hcycX, _, _, _, _, _, _, hXd, hXsnd, _⟩ := cycle_exec_state tf rnd hf
  rw [hcycX] at hcyc
  have hframe := process_opcode_timers_frame hcyc
  have hd := hframe.1 hnd
  have hsd := hframe.2 hns
  constructor
  · rw [hd, hXd]
    cases tf <;> (simp; try omega)
  · rw [hsd, hXsnd]
    cases tf <;> (simp; try omega)

/-- C8 (witness): a cycle with the gate firing on delay 5, sound 3, and the
no-op instruction 0x0000. -/
theorem C8_witness :
    testCpuTimer.fetch = some (0, { testCpuTimer with program_counter := 0x202 }) ∧
    testCpuTimer.cycle true 0 = some testCpuTimerRes ∧
    ¬(nib1 0 = 0xF ∧ nib3 0 = 1 ∧ nib4 0 = 5) ∧
    ¬(nib1 0 = 0xF ∧ nib3 0 = 1 ∧ nib4 0 = 8) ∧
    ((testCpuTimer.delay_timer - 1 ≤ testCpuTimerRes.delay_timer ∧
      testCpuTimerRes.delay_timer ≤ testCpuTimer.delay_timer ∧
      (testCpuTimer.delay_timer = 0 → testCpuTimerRes.delay_timer = 0)) ∧
     (testCpuTimer.sound_timer - 1 ≤ testCpuTimerRes.sound_timer ∧
      testCpuTimerRes.sound_timer ≤ testCpuTimer.sound_timer ∧
      (testCpuTimer.sound_timer = 0 → testCpuTimerRes.sound_timer = 0))) := by
  refine ⟨rfl, rfl, by decide, by decide, ?_⟩
  exact C8_timer_rate true 0 testCpuTimer 0
    { testCpuTimer with program_counter := 0x202 } testCpuTimerRes rfl rfl
    (by decide) (by decide)

/-- C9: with Vx in 0..15, the key-table lookups of Ex9E and ExA1 are in
bounds and the instructions execute without fault, advancing the program
counter by 2 more exactly when the keyed condition holds. -/
theorem C9_skip_key_safe (rnd c : Nat) (cpu : Cpu)
    (hvx : cpu.v (nib2 c) < KEY_COUNT) :
    ((nib1 c = 0xE ∧ nib3 c = 9 ∧ nib4 c = 0xE) →
      ∃ cpu2, cpu.process_opcode rnd c = some cpu2 ∧
        cpu2.program_counter =
          (if cpu.pressed_keys (cpu.v (nib2 c)) then wrap16 (cpu.program_counter + 2)
           else cpu.program_counter)) ∧
    ((nib1 c = 0xE ∧ nib3 c = 0xA ∧ nib4 c = 1) →
      ∃ cpu2, cpu.process_opcode rnd c = some cpu2 ∧
        cpu2.program_counter =
          (if cpu.pressed_keys (cpu.v (nib2 c)) then cpu.program_counter
           else wrap16 (cpu.program_counter + 2))) := by
  constructor
  · rintro ⟨h1, h3, h4⟩
    refine ⟨_, process_opcode_e9e h1 h3 h4 hvx, ?_⟩
    cases hkey : cpu.pressed_keys (cpu.v (nib2 c)) <;> simp [hkey]
  · rintro ⟨h1, h3, h4⟩
    refine ⟨_, process_opcode_ea1 h1 h3 h4 hvx, ?_⟩
    cases hkey : cpu.pressed_keys (cpu.v (nib2 c)) <;> simp [hkey]

/-- C9 (witness): 0xE09E with V0 = 0 and key 7 pressed (key 0 not pressed). -/
theorem C9_witness :
    testCpuKeys.v (nib2 0xE09E) < KEY_COUNT ∧
    (((nib1 0xE09E = 0xE ∧ nib3 0xE09E = 9 ∧ nib4 0xE09E = 0xE) →
      ∃ cpu2, testCpuKeys.process_opcode 0 0xE09E = some cpu2 ∧
        cpu2.program_counter =
          (if testCpuKeys.pressed_keys (testCpuKeys.v (nib2 0xE09E)) then
            wrap16 (testCpuKeys.program_counter + 2)
           else testCpuKeys.program_counter)) ∧
    ((nib1 0xE09E = 0xE ∧ nib3 0xE09E = 0xA ∧ nib4 0xE09E = 1) →
      ∃ cpu2, testCpuKeys.process_opcode 0 0xE09E = some cpu2 ∧
        cpu2.program_counter =
          (if testCpuKeys.pressed_keys (testCpuKeys.v (nib2 0xE09E)) then
            testCpuKeys.program_counter
           else wrap16 (testCpuKeys.program_counter + 2)))) := by
  exact ⟨by decide, C9_skip_key_safe 0 0xE09E testCpuKeys (by decide)⟩


end Chip8
